import Mathlib

/-!
# Call dispatch, host marshalling and module construction of wagon

A shallow embedding of `exec/call.go`, `exec/func.go`, `wasm/module.go` and
`wasm/customs.go`.

* Machine words (`uint64`) are natural numbers; conversions between widths and
  signedness are written out with `%` and explicit two's-complement arithmetic.
* A Go slice used as the operand stack is a list whose LAST element is the top of
  the stack (the order `append` produces).
* Go panics are modelled by `Res.panic`, which carries the VM state at the moment
  the panic is raised: unwinding does not roll any assignment back.
* `execCode`, the bytecode interpreter loop, is not part of the embedded sources.
  Every function that reaches it takes it as the parameter `execCode`.
-/

namespace Wagon

/-! ## Data model -/

/-- Value type tag of a signature position (`wasm.ValueType`); only equality of tags is used
by the call dispatcher. -/
abbrev ValueType := Nat

/-- Signature of a function: `wasm.FunctionSig`. -/
structure FunctionSig where
  Form : Nat
  ParamTypes : List ValueType
  ReturnTypes : List ValueType
deriving DecidableEq, Repr

/-- The kinds of Go types: `reflect.Kind`. -/
inductive Kind where
  | Invalid | Bool | Int | Int8 | Int16 | Int32 | Int64
  | Uint | Uint8 | Uint16 | Uint32 | Uint64 | Uintptr
  | Float32 | Float64 | Complex64 | Complex128
  | Array | Chan | Func | Interface | Map | Ptr | Slice | String | Struct | UnsafePointer
deriving DecidableEq, Repr

/-- A Go type as far as the adapter inspects it: its kind, whether the type of the
execution handle (`*Process`) is convertible to it, and its name `Type.String()`. -/
structure GoType where
  kind : Kind
  fromProcess : Bool
  str : String := ""
deriving DecidableEq, Repr

/-- The `reflect.Type` of a Go function: the parameters before the variadic one, the element
type of the variadic parameter when there is one, and the result types. -/
structure FuncType where
  fixed : List GoType
  variadicElem : Option GoType
  outs : List GoType
deriving DecidableEq, Repr

/-- A Go value passed as `interface{}`, as `reflect.ValueOf` sees it: the kind of its type,
its function type (meaningful when the kind is `Func`) and an identity of the value. -/
structure GoValue where
  kind : Kind
  typ : FuncType
  ident : Nat
deriving DecidableEq, Repr

/-- Kind of an export: `wasm.External`. -/
abbrev External := Nat

/-- Modelled from the spec: the constant `ExternalFunction` is declared outside the embedded
sources; it is the kind that marks an export as a function. -/
def ExternalFunction : External := 0

/-- Entry of the export section: `wasm.ExportEntry`. -/
structure ExportEntry where
  FieldStr : String
  Kind : External
  Index : Nat
deriving DecidableEq, Repr

/-- Entry of the function index space: `wasm.Function`, with the signature and the host
value (`none` is the zero `reflect.Value` of a function that is not a host function). `Sig`
is a pointer in the source; every entry built by the module population code and by
`AddHostFunc` has it set. The fields `Body` and `Name` are not read here. -/
structure Function where
  Sig : FunctionSig
  Host : Option GoValue := none
deriving DecidableEq, Repr

/-- The parts of `wasm.Module` that the embedded functions read or assign. `TypesEntries` is
`Types.Entries` and `ExportEntries` is the map `Export.Entries` (`none` is the nil map), kept
as an association list with one pair per key; both sections are dereferenced without a check
in the source and are taken to be present. `Import`, `Table` and `Code` are the section
pointers (`none` is nil), with the import entries given by their module names and the table
and code entries kept abstract. -/
structure Module where
  TypesEntries : List FunctionSig
  FunctionIndexSpace : List Function
  TableIndexSpace : List (List Nat)
  Version : Nat := 0
  Import : Option (List String) := none
  Table : Option (List Nat) := none
  Code : Option (List Nat) := none
  ExportEntries : Option (List (String × ExportEntry)) := none
  LinearMemoryIndexSpace : List (List Nat) := []
deriving DecidableEq, Repr

/-- Native code unit with the program counter at which interpretation resumes. -/
structure asmBlock where
  nativeUnit : Nat
  resumePC : Nat
deriving DecidableEq, Repr

/-- Static per-function artifact: `compiledFunction`. The three counters are Go `int`s that
the compiler produces as lengths and depths; they are natural numbers here. The fields
`codeMeta`, `branchTables` and `name` are read by neither call entry and are left out. -/
structure compiledFunction where
  code : List Nat
  maxDepth : Nat
  totalLocalVars : Nat
  args : Nat
  returns : Bool
  asm : List asmBlock
deriving DecidableEq, Repr

/-- Execution context of one call, with the fields the two call entries assign. `stack` is the
slice contents (top last) and `stackCap` the capacity of its backing array. -/
structure context where
  stack : List Nat
  stackCap : Nat
  locals : List Nat
  code : List Nat
  asm : List asmBlock
  pc : Int
  curFunc : Int
deriving DecidableEq, Repr

/-- The virtual machine: the current context, the module and the compiled function table. -/
structure VM where
  ctx : context
  module : Module
  compiledFuncs : List compiledFunction
deriving DecidableEq, Repr

/-- Values a Go panic can carry in this development. -/
inductive Panic where
  | ErrSignatureMismatch
  | indexOutOfRange
  | invalidArgKind (i : Nat) (kind : Kind)
  | invalidReturnKind (i : Nat) (kind : Kind)
  | reflectPanic
  | other (code : Nat)
deriving DecidableEq, Repr

/-- Outcome of running a piece of VM code: normal completion with a value, or a panic. Both
carry the VM state reached. -/
inductive Res (α : Type) where
  | ok (val : α) (vm : VM)
  | panic (err : Panic) (vm : VM)
deriving DecidableEq, Repr

/-- The VM state an outcome ends in. -/
def Res.state {α : Type} : Res α → VM
  | .ok _ s => s
  | .panic _ s => s

/-- Whether the outcome is a normal return. -/
def Res.isOk {α : Type} : Res α → Bool
  | .ok _ _ => true
  | .panic _ _ => false

/-- The interpreter loop `vm.execCode(compiled)`, supplied from outside. -/
abbrev ExecCode := compiledFunction → VM → Res Nat

/-! ## Operand stack and instruction stream primitives -/

/-- Modelled from the spec: `pushUint64` is declared outside the embedded sources. The operand
stack is a per-call sequence of 64-bit words and a push appends one word on top. -/
def VM.pushUint64 (vm : VM) (w : Nat) : VM :=
  { vm with ctx := { vm.ctx with
      stack := vm.ctx.stack ++ [w],
      stackCap := max vm.ctx.stackCap (vm.ctx.stack.length + 1) } }

/-- Modelled from the spec: `popUint64` is declared outside the embedded sources. A pop removes
the top word and yields it; on an empty stack the slice index is out of range. -/
def VM.popUint64 (vm : VM) : Res Nat :=
  match vm.ctx.stack.getLast? with
  | none => .panic .indexOutOfRange vm
  | some w => .ok w { vm with ctx := { vm.ctx with stack := vm.ctx.stack.dropLast } }

/-- Modelled from the spec: `popUint32` is declared outside the embedded sources. It pops one
word and keeps its low 32 bits. -/
def VM.popUint32 (vm : VM) : Res Nat :=
  match vm.popUint64 with
  | .panic e s => .panic e s
  | .ok w s => .ok (w % 2 ^ 32) s

/-- Modelled from the spec: `fetchUint32` is declared outside the embedded sources. The
instruction stream yields the next 32-bit immediate: four little-endian bytes at the program
counter, which advances by four. -/
def VM.fetchUint32 (vm : VM) : Res Nat :=
  if vm.ctx.pc < 0 then .panic .indexOutOfRange vm
  else
    let p := vm.ctx.pc.toNat
    match vm.ctx.code[p]?, vm.ctx.code[p + 1]?, vm.ctx.code[p + 2]?, vm.ctx.code[p + 3]? with
    | some b0, some b1, some b2, some b3 =>
      .ok (b0 % 256 + 256 * (b1 % 256) + 65536 * (b2 % 256) + 16777216 * (b3 % 256))
        { vm with ctx := { vm.ctx with pc := vm.ctx.pc + 4 } }
    | _, _, _, _ => .panic .indexOutOfRange vm

/-! ## `exec/call.go` and `compiledFunction.call` -/

/-- The loop `for i := args - 1; i >= 0; i-- { locals[i] = vm.popUint64() }`, with the
first argument the number of iterations still to run (so the next index is one less). The
right-hand side is evaluated before the slot is assigned. -/
def popArgs : Nat → List Nat → VM → Res (List Nat)
  | 0, locals, vm => .ok locals vm
  | i + 1, locals, vm =>
    match vm.popUint64 with
    | .panic e s => .panic e s
    | .ok w s =>
      if i < locals.length then popArgs i (locals.set i w) s
      else .panic .indexOutOfRange s

/-- Lines 10 to 26 of `doCall`: allocate the callee stack and locals, move the arguments,
save the caller context and install the callee context. Returns the saved context. -/
def VM.doCallEnter (vm : VM) (compiled : compiledFunction) (index : Int) : Res context :=
  let newStack := List.replicate compiled.maxDepth 0
  let locals := List.replicate compiled.totalLocalVars 0
  match popArgs compiled.args locals vm with
  | .panic e s => .panic e s
  | .ok locals s =>
    let prevCtxt := s.ctx
    .ok prevCtxt { s with ctx :=
      { stack := newStack, stackCap := compiled.maxDepth, locals := locals,
        code := compiled.code, asm := [], pc := 0, curFunc := index } }

/-- Body of `func (vm *VM) doCall(compiled compiledFunction, index int64)`. -/
def VM.doCall (execCode : ExecCode) (vm : VM) (compiled : compiledFunction) (index : Int) :
    Res Unit :=
  match vm.doCallEnter compiled index with
  | .panic e s => .panic e s
  | .ok prevCtxt s =>
    match execCode compiled s with
    | .panic e s1 => .panic e s1
    | .ok rtrn s1 =>
      let s2 := { s1 with ctx := prevCtxt }
      if compiled.returns then .ok () (s2.pushUint64 rtrn) else .ok () s2

/-- Lines 131 to 148 of `compiledFunction.call`: as `doCallEnter`, with an empty stack of
capacity `maxDepth + 1` and the native blocks recorded in the context. -/
def compiledFunction.callEnter (compiled : compiledFunction) (vm : VM) (index : Int) :
    Res context :=
  let locals := List.replicate compiled.totalLocalVars 0
  match popArgs compiled.args locals vm with
  | .panic e s => .panic e s
  | .ok locals s =>
    let prevCtxt := s.ctx
    .ok prevCtxt { s with ctx :=
      { stack := [], stackCap := compiled.maxDepth + 1, locals := locals,
        code := compiled.code, asm := compiled.asm, pc := 0, curFunc := index } }

/-- Body of `func (compiled compiledFunction) call(vm *VM, index int64)`. -/
def compiledFunction.call (execCode : ExecCode) (compiled : compiledFunction) (vm : VM)
    (index : Int) : Res Unit :=
  match compiled.callEnter vm index with
  | .panic e s => .panic e s
  | .ok prevCtxt s =>
    match execCode compiled s with
    | .panic e s1 => .panic e s1
    | .ok rtrn s1 =>
      let s2 := { s1 with ctx := prevCtxt }
      if compiled.returns then .ok () (s2.pushUint64 rtrn) else .ok () s2

/-- Body of `func (vm *VM) call()`: fetch the literal function index and dispatch. -/
def VM.call (execCode : ExecCode) (vm : VM) : Res Unit :=
  match vm.fetchUint32 with
  | .panic e s => .panic e s
  | .ok index s =>
    match s.compiledFuncs[index]? with
    | none => .panic .indexOutOfRange s
    | some compiled => s.doCall execCode compiled (index : Int)

/-- One of the two loops `for i := range expect { if expect[i] != actual[i] { panic } }` of
`callIndirect`: first argument the iterations still to run, second the current index. -/
def checkTypes (expect actual : List ValueType) : Nat → Nat → Option Panic
  | 0, _ => none
  | n + 1, i =>
    match expect[i]?, actual[i]? with
    | some e, some a =>
      if e ≠ a then some .ErrSignatureMismatch else checkTypes expect actual n (i + 1)
    | _, _ => some .indexOutOfRange

/-- Lines 58 to 75 of `callIndirect`: the two length comparisons followed by the two pairwise
loops. `none` means that no panic was raised. -/
def checkSignature (fnExpect : FunctionSig) (fnActual : Function) : Option Panic :=
  if fnExpect.ParamTypes.length ≠ fnActual.Sig.ParamTypes.length then
    some .ErrSignatureMismatch
  else if fnExpect.ReturnTypes.length ≠ fnActual.Sig.ReturnTypes.length then
    some .ErrSignatureMismatch
  else
    match checkTypes fnExpect.ParamTypes fnActual.Sig.ParamTypes
        fnExpect.ParamTypes.length 0 with
    | some e => some e
    | none =>
      checkTypes fnExpect.ReturnTypes fnActual.Sig.ReturnTypes fnExpect.ReturnTypes.length 0

/-- Body of `func (vm *VM) callIndirect()`. -/
def VM.callIndirect (execCode : ExecCode) (vm : VM) : Res Unit :=
  match vm.fetchUint32 with
  | .panic e s => .panic e s
  | .ok index s =>
    match s.module.TypesEntries[index]? with
    | none => .panic .indexOutOfRange s
    | some fnExpect =>
      match s.fetchUint32 with
      | .panic e s1 => .panic e s1
      | .ok _ s1 =>
        match s1.popUint32 with
        | .panic e s2 => .panic e s2
        | .ok tableIndex s2 =>
          match s2.module.TableIndexSpace[0]? with
          | none => .panic .indexOutOfRange s2
          | some table =>
            match table[tableIndex]? with
            | none => .panic .indexOutOfRange s2
            | some elemIndex =>
              match s2.module.FunctionIndexSpace[elemIndex]? with
              | none => .panic .indexOutOfRange s2
              | some fnActual =>
                match checkSignature fnExpect fnActual with
                | some e => .panic e s2
                | none =>
                  match s2.compiledFuncs[elemIndex]? with
                  | none => .panic .indexOutOfRange s2
                  | some compiled => s2.doCall execCode compiled (index : Int)

/-! ## Host functions: `wasmToReflect` and `goFunction.call`

Package `reflect` is modelled as far as the adapter uses it. A float64 is represented by its
IEEE-754 bit pattern, so `math.Float64frombits` and `math.Float64bits` are the identity; the
two conversions between float32 and float64 are the fields of `FloatConv`. -/

/-- Conversions between the two float widths, on bit patterns: `narrow` is `float32(x)` and
`widen` is `float64(y)`. -/
structure FloatConv where
  narrow : Nat → Nat
  widen : Nat → Nat

/-- Signed reading of the low `w` bits of `bits` (two's complement). -/
def toSigned (w : Nat) (bits : Nat) : Int :=
  if bits % 2 ^ w < 2 ^ (w - 1) then ((bits % 2 ^ w : Nat) : Int)
  else ((bits % 2 ^ w : Nat) : Int) - ((2 ^ w : Nat) : Int)

/-- The `w`-bit two's complement pattern of `x`. -/
def ofSigned (w : Nat) (x : Int) : Nat :=
  (x % ((2 ^ w : Nat) : Int)).toNat

/-- A `reflect.Value` as the adapter meets it: a variable of a type of kind `kind` holding the
bit pattern `bits` at the width of its kind, the execution handle built by `NewProcess`, or the
zero `reflect.Value` of a slot that was never assigned. -/
inductive Value where
  | val (kind : Kind) (bits : Nat)
  | proc (index : Int)
  | invalid
deriving DecidableEq, Repr

/-- Kind of a value: `Value.Kind()`. -/
def Value.Kind : Value → Kind
  | .val k _ => k
  | .proc _ => .Ptr
  | .invalid => .Invalid

/-- Width in bits of the signed integer kinds, `none` for every other kind. -/
def Kind.intWidth : Kind → Option Nat
  | .Int => some 64
  | .Int8 => some 8
  | .Int16 => some 16
  | .Int32 => some 32
  | .Int64 => some 64
  | _ => none

/-- Width in bits of the unsigned integer kinds, `none` for every other kind. -/
def Kind.uintWidth : Kind → Option Nat
  | .Uint => some 64
  | .Uintptr => some 64
  | .Uint8 => some 8
  | .Uint16 => some 16
  | .Uint32 => some 32
  | .Uint64 => some 64
  | _ => none

/-- Setter `Value.SetInt(x)`: stores `x` truncated to the width of the kind; panics (here
`none`) unless the kind is a signed integer kind. -/
def Value.SetInt (v : Value) (x : Int) : Option Value :=
  match v with
  | .val k _ =>
    match k.intWidth with
    | some w => some (.val k (ofSigned w x))
    | none => none
  | _ => none

/-- Setter `Value.SetUint(x)`: stores `x` truncated to the width of the kind; panics (here
`none`) unless the kind is an unsigned integer kind. -/
def Value.SetUint (v : Value) (x : Nat) : Option Value :=
  match v with
  | .val k _ =>
    match k.uintWidth with
    | some w => some (.val k (x % 2 ^ w))
    | none => none
  | _ => none

/-- Setter `Value.SetFloat(x)`: stores `x`, narrowed for a float32 variable; panics (here
`none`) unless the kind is a float kind. -/
def Value.SetFloat (fl : FloatConv) (v : Value) (x : Nat) : Option Value :=
  match v with
  | .val .Float64 _ => some (.val .Float64 x)
  | .val .Float32 _ => some (.val .Float32 (fl.narrow x))
  | _ => none

/-- Getter `Value.Int()`: the stored signed integer as an int64. -/
def Value.Int (v : Value) : Option Int :=
  match v with
  | .val k b =>
    match k.intWidth with
    | some w => some (toSigned w b)
    | none => none
  | _ => none

/-- Getter `Value.Uint()`: the stored unsigned integer as a uint64. -/
def Value.Uint (v : Value) : Option Nat :=
  match v with
  | .val k b =>
    match k.uintWidth with
    | some w => some (b % 2 ^ w)
    | none => none
  | _ => none

/-- Getter `Value.Float()`: the stored float as a float64. -/
def Value.Float (fl : FloatConv) (v : Value) : Option Nat :=
  match v with
  | .val .Float64 b => some b
  | .val .Float32 b => some (fl.widen b)
  | _ => none

/-- Body of `func wasmToReflect(val *reflect.Value, i int, kind reflect.Kind, raw uint64)`.
The updated variable is returned instead of being written through the pointer. -/
def wasmToReflect (fl : FloatConv) (val : Value) (i : Nat) (kind : Kind) (raw : Nat) :
    Except Panic Value :=
  match kind with
  | .Float64 | .Float32 =>
    match val.SetFloat fl raw with
    | some v => .ok v
    | none => .error .reflectPanic
  | .Uint32 | .Uint64 =>
    match val.SetUint raw with
    | some v => .ok v
    | none => .error .reflectPanic
  | .Int32 | .Int64 =>
    match val.SetInt (toSigned 64 raw) with
    | some v => .ok v
    | none => .error .reflectPanic
  | _ => .error (.invalidArgKind i kind)

/-- Method `Type.IsVariadic()`. -/
def FuncType.IsVariadic (t : FuncType) : Bool := t.variadicElem.isSome

/-- Method `Type.NumIn()`: a variadic parameter counts as one (slice) parameter. -/
def FuncType.NumIn (t : FuncType) : Nat :=
  t.fixed.length + (if t.IsVariadic then 1 else 0)

/-- Method `Type.In(i)`; `none` where reflect panics on an index out of range. The last
parameter of a variadic function is a slice type, to which a pointer is not convertible. -/
def FuncType.In (t : FuncType) (i : Nat) : Option GoType :=
  match t.fixed[i]? with
  | some ty => some ty
  | none =>
    if t.IsVariadic ∧ i = t.fixed.length then some { kind := .Slice, fromProcess := false }
    else none

/-- The zero variable `reflect.New(t).Elem()`. -/
def GoType.newElem (t : GoType) : Value := .val t.kind 0

/-- Host function: `goFunction`. The callable `val` maps the arguments it receives (the
parameters before the variadic one, then the elements of the variadic slice) to its results.
The field `name` is not read by `call` and is left out. -/
structure goFunction where
  val : List Value → List Value → List Value
  typ : FuncType

/-- The condition `fn.typ.NumIn() > 0 && reflect.TypeOf(proc).ConvertibleTo(fn.typ.In(0))` of
`goFunction.call`: the first parameter of the callable takes the execution handle. -/
def goFunction.firstIsProc (fn : goFunction) : Bool :=
  decide (fn.typ.NumIn > 0) &&
    (match fn.typ.In 0 with
     | some t => t.fromProcess
     | none => false)

/-- The value `wasmToReflect` stores in a fresh variable of type `t` for the word `raw`
(the zero `Value` where it panics). -/
def convertWord (fl : FloatConv) (t : GoType) (raw : Nat) : Value :=
  match wasmToReflect fl t.newElem 0 t.kind raw with
  | .ok v => v
  | .error _ => .invalid

/-- Method `Value.Call(args)` of reflect on a function value: panics on a zero `Value` argument
or on a wrong number of arguments; for a variadic function the arguments from position
`NumIn - 1` on are collected into the variadic slice. -/
def goFunction.Call (fn : goFunction) (args : List Value) : Option (List Value) :=
  if args.any (fun a => a == Value.invalid) then none
  else if fn.typ.IsVariadic then
    if args.length < fn.typ.fixed.length then none
    else some (fn.val (args.take fn.typ.fixed.length) (args.drop fn.typ.fixed.length))
  else
    if args.length ≠ fn.typ.fixed.length then none
    else some (fn.val args [])

/-- The loop over the variadic arguments of `goFunction.call`,
`for i := nparams - 1; i >= endIndexForNonVariadicParams + 1; i--`. The third argument is
one more than the next index, `lo` is the lower bound of the loop. -/
def variadicLoop (fl : FloatConv) (typ : GoType) (lo : Nat) :
    Nat → List Value → VM → Res (List Value)
  | 0, args, vm => .ok args vm
  | i + 1, args, vm =>
    if i < lo then .ok args vm
    else
      match vm.popUint64 with
      | .panic e s => .panic e s
      | .ok raw s =>
        match wasmToReflect fl typ.newElem i typ.kind raw with
        | .error e => .panic e s
        | .ok v =>
          if i < args.length then variadicLoop fl typ lo i (args.set i v) s
          else .panic .indexOutOfRange s

/-- The loop over the fixed parameters of `goFunction.call`,
`for i := endIndexForNonVariadicParams; i >= startIndexForParams; i--`. The third argument
is one more than the next index, `lo` is `startIndexForParams`. -/
def fixedLoop (fl : FloatConv) (typ : FuncType) (lo : Nat) :
    Nat → List Value → VM → Res (List Value)
  | 0, args, vm => .ok args vm
  | i + 1, args, vm =>
    if i < lo then .ok args vm
    else
      match typ.In i with
      | none => .panic .reflectPanic vm
      | some t =>
        match vm.popUint64 with
        | .panic e s => .panic e s
        | .ok raw s =>
          match wasmToReflect fl t.newElem i t.kind raw with
          | .error e => .panic e s
          | .ok v =>
            if i < args.length then fixedLoop fl typ lo i (args.set i v) s
            else .panic .indexOutOfRange s

/-- Modelled from the spec: `pushInt64` is declared outside the embedded sources. It pushes
the 64-bit two's complement pattern of the integer. -/
def VM.pushInt64 (vm : VM) (x : Int) : VM := vm.pushUint64 (ofSigned 64 x)

/-- Modelled from the spec: `pushFloat64` is declared outside the embedded sources. It pushes
the bit pattern of the float64. -/
def VM.pushFloat64 (vm : VM) (x : Nat) : VM := vm.pushUint64 x

/-- The loop `for i, out := range rtrns` of `goFunction.call`; the second argument is `i`. -/
def pushReturns (fl : FloatConv) : List Value → Nat → VM → Res Unit
  | [], _, vm => .ok () vm
  | out :: rest, i, vm =>
    match out.Kind with
    | .Float64 | .Float32 =>
      match out.Float fl with
      | some x => pushReturns fl rest (i + 1) (vm.pushFloat64 x)
      | none => .panic .reflectPanic vm
    | .Uint32 | .Uint64 =>
      match out.Uint with
      | some x => pushReturns fl rest (i + 1) (vm.pushUint64 x)
      | none => .panic .reflectPanic vm
    | .Int32 | .Int64 =>
      match out.Int with
      | some x => pushReturns fl rest (i + 1) (vm.pushInt64 x)
      | none => .panic .reflectPanic vm
    | k => .panic (.invalidReturnKind i k) vm

/-- Lines 67 to 110 of `goFunction.call`: everything up to the native call. Pops the argument
words and yields the argument vector handed to `Call`. -/
def goFunction.marshal (fl : FloatConv) (fn : goFunction) (vm : VM) (index : Int) :
    Res (List Value) :=
  if index < 0 then .panic .indexOutOfRange vm
  else
    match vm.module.FunctionIndexSpace[index.toNat]? with
    | none => .panic .indexOutOfRange vm
    | some f =>
      let fsig := f.Sig
      let nparams := fsig.ParamTypes.length
      let proc := Value.proc index
      let startIndexForParams := if fn.firstIsProc then 1 else 0
      let nparams := if fn.firstIsProc then nparams + 1 else nparams
      let args := List.replicate nparams Value.invalid
      let afterVariadic : Res (List Value) :=
        match fn.typ.variadicElem with
        | some typ => variadicLoop fl typ fn.typ.fixed.length nparams args vm
        | none => .ok args vm
      match afterVariadic with
      | .panic e s => .panic e s
      | .ok args s =>
        let hi := if fn.typ.IsVariadic then fn.typ.fixed.length else nparams
        match fixedLoop fl fn.typ startIndexForParams hi args s with
        | .panic e s1 => .panic e s1
        | .ok args s1 =>
          if startIndexForParams > 0 then .ok (args.set 0 proc) s1 else .ok args s1

/-- Body of `func (fn goFunction) call(vm *VM, index int64)`. -/
def goFunction.call (fl : FloatConv) (fn : goFunction) (vm : VM) (index : Int) : Res Unit :=
  match fn.marshal fl vm index with
  | .panic e s => .panic e s
  | .ok args s =>
    match fn.Call args with
    | none => .panic .reflectPanic s
    | some rtrns => pushReturns fl rtrns 0 s

/-! ## `wasm/module.go`: host function registration -/

/-- Modelled from the spec: the constant `ValueTypeI32` is declared outside the embedded
sources; it is the tag of the 32-bit integer value type. -/
def ValueTypeI32 : ValueType := 127

/-- Modelled from the spec: the constant `ValueTypeI64` is declared outside the embedded
sources; it is the tag of the 64-bit integer value type. -/
def ValueTypeI64 : ValueType := 126

/-- Modelled from the spec: the constant `ValueTypeF32` is declared outside the embedded
sources; it is the tag of the 32-bit float value type. -/
def ValueTypeF32 : ValueType := 125

/-- Modelled from the spec: the constant `ValueTypeF64` is declared outside the embedded
sources; it is the tag of the 64-bit float value type. -/
def ValueTypeF64 : ValueType := 124

/-- The map `reflectToValueType`; a kind that is not a key yields the zero `ValueType`, as a
Go map lookup does. -/
def reflectToValueType : Kind → ValueType
  | .Int32 => ValueTypeI32
  | .Int64 => ValueTypeI64
  | .Uint32 => ValueTypeI32
  | .Uint64 => ValueTypeI64
  | .Float32 => ValueTypeF32
  | .Float64 => ValueTypeF64
  | _ => 0

/-- Method `Type.NumOut()`. -/
def FuncType.NumOut (t : FuncType) : Nat := t.outs.length

/-- Method `Type.Out(i)`; `none` where reflect panics on an index out of range. -/
def FuncType.Out (t : FuncType) (i : Nat) : Option GoType := t.outs[i]?

/-- Panics of `AddHostFunc`. -/
inductive HostFuncPanic where
  | notAFunction (kind : Kind)
  | variadicNotSupported
  | reflectIndex
deriving DecidableEq, Repr

/-- The loops `for i := 0; i < len(types); i++ { types[i] = reflectToValueType[get(i).Kind()] }`
of `AddHostFunc`: first argument the iterations still to run, second the current index; `get`
is `typ.In(i + offset)` or `typ.Out(i)`. -/
def fillTypes (get : Nat → Option GoType) : Nat → Nat → Except HostFuncPanic (List ValueType)
  | 0, _ => .ok []
  | n + 1, i =>
    match get i with
    | none => .error .reflectIndex
    | some t =>
      match fillTypes get n (i + 1) with
      | .error e => .error e
      | .ok rest => .ok (reflectToValueType t.kind :: rest)

/-- Assignment `entries[name] = e` on a Go map kept as an association list. -/
def mapAssign (entries : List (String × ExportEntry)) (name : String) (e : ExportEntry) :
    List (String × ExportEntry) :=
  (name, e) :: entries.filter (fun p => p.1 ≠ name)

/-- The condition `typ.NumIn() > 0 && typ.In(0).String() == "*exec.Process"` of
`AddHostFunc`. -/
def FuncType.firstParamIsProcess (typ : FuncType) : Bool :=
  decide (typ.NumIn > 0) &&
    (match typ.In 0 with
     | some t => t.str == "*exec.Process"
     | none => false)

/-- Lines 99 to 119 of `AddHostFunc`: the signature recorded for a callable of type `typ`. A
variadic callable keeps the empty signature. -/
def hostSig (typ : FuncType) : Except HostFuncPanic FunctionSig :=
  let offset := if typ.firstParamIsProcess then 1 else 0
  if !typ.IsVariadic then
    match fillTypes (fun i => typ.In (i + offset)) (typ.NumIn - offset) 0 with
    | .error e => .error e
    | .ok paramTypes =>
      match fillTypes typ.Out typ.NumOut 0 with
      | .error e => .error e
      | .ok returnTypes =>
        .ok { Form := 0, ParamTypes := paramTypes, ReturnTypes := returnTypes }
  else .ok { Form := 0, ParamTypes := [], ReturnTypes := [] }

/-- Body of `func (m *Module) AddHostFunc(name string, fn interface{})`; the updated module
is returned instead of being written through the pointer. -/
def Module.AddHostFunc (m : Module) (name : String) (fn : GoValue) :
    Except HostFuncPanic Module :=
  let typ := fn.typ
  if fn.kind ≠ .Func then .error (.notAFunction fn.kind)
  else if name ≠ "" ∧ typ.IsVariadic = true then .error .variadicNotSupported
  else
    match hostSig typ with
    | .error e => .error e
    | .ok sig =>
      let hostFn : Function := { Host := some fn, Sig := sig }
      let index := m.FunctionIndexSpace.length % 2 ^ 32
      let entries :=
        match m.ExportEntries with
        | none => []
        | some es => es
      .ok { m with
        FunctionIndexSpace := m.FunctionIndexSpace ++ [hostFn],
        TypesEntries := m.TypesEntries ++ [sig],
        ExportEntries :=
          some (mapAssign entries name
            { FieldStr := name, Kind := ExternalFunction, Index := index }) }

/-! ## `wasm/module.go`: reading a module -/

/-- Errors returned by the functions of package `wasm`. -/
inductive WasmError where
  | ErrInvalidMagic
  | unexpectedEOF
  | invalidUTF8
  | other (code : Nat)
deriving DecidableEq, Repr

/-- The constant `Magic`. -/
def Magic : Nat := 0x6d736100

/-- Function type `ResolveFunc`: takes a module name and returns a resolved module or an
error. -/
abbrev ResolveFunc := String → Except WasmError Module

/-- The functions of package `wasm` that `DecodeModule` and `ReadModule` call and that are
outside the embedded sources. A reader is the list of bytes not yet consumed. Functions that
update the module through the pointer return the updated module. `link` is the part of
`resolveImports` that binds one import entry to the module resolved for it. -/
structure Loader where
  readU32 : List Nat → Except WasmError (Nat × List Nat)
  readSection : Module → List Nat → Except WasmError (Bool × Module × List Nat)
  link : Module → String → Module → Except WasmError Module
  populateGlobals : Module → Except WasmError Module
  populateFunctions : Module → Except WasmError Module
  populateTables : Module → Except WasmError Module
  populateLinearMemory : Module → Except WasmError Module

/-- The module `&Module{}` with every field zero. -/
def emptyModule : Module :=
  { TypesEntries := [], FunctionIndexSpace := [], TableIndexSpace := [] }

/-- The loop `for { done, err := m.readSection(reader) ... }` of `DecodeModule`, which has no
bound of its own: `none` when the first argument, the number of iterations allowed, runs out
before the loop returns. -/
def readSections (L : Loader) : Nat → Module → List Nat → Option (Except WasmError Module)
  | 0, _, _ => none
  | fuel + 1, m, r =>
    match L.readSection m r with
    | .error e => some (.error e)
    | .ok (done, m1, r1) => if done then some (.ok m1) else readSections L fuel m1 r1

/-- Body of `func DecodeModule(r io.Reader) (*Module, error)`: `.error e` is the return
`nil, e` and `.ok m` the return `m, nil`. -/
def DecodeModule (L : Loader) (fuel : Nat) (r : List Nat) : Option (Except WasmError Module) :=
  match L.readU32 r with
  | .error e => some (.error e)
  | .ok (magic, r1) =>
    if magic ≠ Magic then some (.error .ErrInvalidMagic)
    else
      match L.readU32 r1 with
      | .error e => some (.error e)
      | .ok (version, r2) => readSections L fuel { emptyModule with Version := version } r2

/-- Modelled from the spec: `resolveImports` is outside the embedded sources. The module name
of each import entry is resolved through the caller-supplied resolver, eagerly and in order;
an unresolved name fails at once with the resolver's error. -/
def resolveImports (L : Loader) (resolve : ResolveFunc) :
    List String → Module → Except WasmError Module
  | [], m => .ok m
  | name :: rest, m =>
    match resolve name with
    | .error e => .error e
    | .ok imported =>
      match L.link m name imported with
      | .error e => .error e
      | .ok m1 => resolveImports L resolve rest m1

/-- The loop `for _, fn := range []func() error{...}` of `ReadModule` with the two returns
that follow it: the pair is the returned `(*Module, error)`. -/
def runSteps : List (Module → Except WasmError Module) → Module →
    Option Module × Option WasmError
  | [], m => (some m, none)
  | fn :: rest, m =>
    match fn m with
    | .error e => (none, some e)
    | .ok m1 => runSteps rest m1

/-- Lines 185 to 188 of `ReadModule`: one linear memory is reserved and, when there is a
table section, one table per entry. -/
def Module.allocateIndexSpaces (m : Module) : Module :=
  let m := { m with LinearMemoryIndexSpace := [[]] }
  match m.Table with
  | some entries => { m with TableIndexSpace := List.replicate entries.length [] }
  | none => m

/-- Lines 191 to 193 of `ReadModule`: a missing code section is replaced by an empty one. -/
def Module.ensureCode (m : Module) : Module :=
  match m.Code with
  | none => { m with Code := some [] }
  | some _ => m

/-- Lines 185 to 199 of `ReadModule`: the index spaces are allocated and the imports are
resolved when there is a section of imports and a resolver. -/
def prepareModule (L : Loader) (resolvePath : Option ResolveFunc) (m : Module) :
    Except WasmError Module :=
  let m := m.allocateIndexSpaces
  match m.Import, resolvePath with
  | some imports, some resolve => resolveImports L resolve imports m.ensureCode
  | _, _ => .ok m

/-- Body of `func ReadModule(r io.Reader, resolvePath ResolveFunc) (*Module, error)`. The
result is the returned pair; `none` when `DecodeModule` is still running after `fuel`
iterations of its section loop. -/
def ReadModule (L : Loader) (fuel : Nat) (r : List Nat) (resolvePath : Option ResolveFunc) :
    Option (Option Module × Option WasmError) :=
  match DecodeModule L fuel r with
  | none => none
  | some (.error e) => some (none, some e)
  | some (.ok m) =>
    match prepareModule L resolvePath m with
    | .error e => some (none, some e)
    | .ok m1 =>
      some (runSteps
        [L.populateGlobals, L.populateFunctions, L.populateTables, L.populateLinearMemory] m1)

/-! ## `wasm/customs.go`: the name section -/

/-- Entry of the name section: `CustomName`. A Go string is its sequence of bytes. -/
structure CustomName where
  Index : Nat
  Name : List Nat
deriving DecidableEq, Repr

/-- Outcome of `CustomReadNames`: the names with a nil error, a nil slice with an error, or a
panic. -/
inductive ReadNamesResult where
  | ok (names : List CustomName)
  | err (e : WasmError)
  | panicIndex
  | panicUnsupported (typ : Nat)
deriving DecidableEq, Repr

/-- The loop of `leb128.ReadVarUint32`, with the shift and the value accumulated so far. -/
def readVarUint32Loop : List Nat → Nat → Nat → Except WasmError (Nat × List Nat)
  | [], _, _ => .error .unexpectedEOF
  | b :: rest, shift, res =>
    let res := (res + (b % 128) * 2 ^ shift) % 2 ^ 32
    if b % 256 < 128 then .ok (res, rest) else readVarUint32Loop rest (shift + 7) res

/-- Modelled from the spec: `leb128.ReadVarUint32` is outside the embedded sources. It reads an
unsigned LEB128 number: seven value bits per byte, least significant group first, the high
bit of a byte set when another byte follows; the value is kept at 32 bits. -/
def ReadVarUint32 (r : List Nat) : Except WasmError (Nat × List Nat) :=
  readVarUint32Loop r 0 0

/-- Modelled from the spec: `readStringUint` is outside the embedded sources. It reads a
length-prefixed UTF-8 string: a LEB128 length and that many bytes, which must be there and
must pass the UTF-8 check `valid`. -/
def readStringUint (valid : List Nat → Bool) (r : List Nat) :
    Except WasmError (List Nat × List Nat) :=
  match ReadVarUint32 r with
  | .error e => .error e
  | .ok (n, r1) =>
    if r1.length < n then .error .unexpectedEOF
    else if valid (r1.take n) then .ok (r1.take n, r1.drop n)
    else .error .invalidUTF8

/-- The loop `for i := range names` of `CustomReadNames`: first argument the entries still to
read. -/
def readNamesLoop (valid : List Nat → Bool) :
    Nat → List Nat → Except WasmError (List CustomName)
  | 0, _ => .ok []
  | k + 1, r =>
    match ReadVarUint32 r with
    | .error e => .error e
    | .ok (index, r1) =>
      match readStringUint valid r1 with
      | .error e => .error e
      | .ok (name, r2) =>
        match readNamesLoop valid k r2 with
        | .error e => .error e
        | .ok rest => .ok ({ Index := index, Name := name } :: rest)

/-- Body of `func CustomReadNames(b []byte) ([]CustomName, error)`. -/
def CustomReadNames (valid : List Nat → Bool) (b : List Nat) : ReadNamesResult :=
  match b with
  | [] => .panicIndex
  | typ :: rest =>
    if typ ≠ 1 then .panicUnsupported typ
    else
      match ReadVarUint32 rest with
      | .error e => .err e
      | .ok (_, r1) =>
        match ReadVarUint32 r1 with
        | .error e => .err e
        | .ok (n, r2) =>
          match readNamesLoop valid n r2 with
          | .error e => .err e
          | .ok names => .ok names

/-- Unsigned LEB128 encoding with a bound on the number of further bytes. -/
def leb128Groups : Nat → Nat → List Nat
  | 0, v => [v % 128]
  | fuel + 1, v => if v < 128 then [v] else (v % 128 + 128) :: leb128Groups fuel (v / 128)

/-- Unsigned LEB128 encoding of a number, as the specification of the name section names
it. -/
def leb128 (v : Nat) : List Nat := leb128Groups v v

/-- Encoding of the entries of the name section in the words of the specification: for each
pair its LEB128 function index followed by its length-prefixed name. -/
def encodeNames : List CustomName → List Nat
  | [] => []
  | p :: rest => leb128 p.Index ++ (leb128 p.Name.length ++ p.Name) ++ encodeNames rest

/-- Encoding of the function name subsection in the words of the specification: the type byte
1, the LEB128 subsection byte length, the LEB128 entry count, then the entries. -/
def encodeNameSection (totalSize : Nat) (names : List CustomName) : List Nat :=
  1 :: (leb128 totalSize ++ (leb128 names.length ++ encodeNames names))

/-! ## Concrete instances -/

/-- A two-argument function with one further local that returns a value. -/
def addFn : compiledFunction :=
  { code := [], maxDepth := 2, totalLocalVars := 3, args := 2, returns := true, asm := [] }

/-- A caller state: three words on the operand stack, one local, inside function 4. -/
def demoVM : VM :=
  { ctx := { stack := [9, 2, 3], stackCap := 4, locals := [7], code := [1, 0, 0, 0],
             asm := [], pc := 0, curFunc := 4 },
    module := { TypesEntries := [], FunctionIndexSpace := [], TableIndexSpace := [] },
    compiledFuncs := [addFn, addFn] }

/-- A body that returns 5 at once and leaves the state `demoVM` behind. -/
def constBody : ExecCode := fun _ _ => .ok 5 demoVM

/-- A body that traps at once, as a nested `call_indirect` with a wrong signature does. -/
def trapBody : ExecCode := fun _ s => .panic .ErrSignatureMismatch s

/-- A body that fails at once and leaves the state `demoVM` behind. -/
def failBody : ExecCode := fun _ _ => .panic (.other 1) demoVM

/-- The frame `doCall` installs when `demoVM` calls `addFn` as function 1. -/
def demoCallee : VM :=
  { demoVM with ctx :=
      { stack := [0, 0], stackCap := 2, locals := [2, 3, 0], code := [], asm := [], pc := 0,
        curFunc := 1 } }

/-- The frame `compiledFunction.call` installs when `demoVM` calls `addFn` as function 1. -/
def demoCalleeNative : VM :=
  { demoVM with ctx :=
      { stack := [], stackCap := 3, locals := [2, 3, 0], code := [], asm := [], pc := 0,
        curFunc := 1 } }

/-- The condition of a signature mismatch in the words of the specification: the expected and
the actual signature differ in parameter count, in return count, or in the value type at some
parameter or return position. -/
def signaturesDiffer (expect actual : FunctionSig) : Prop :=
  expect.ParamTypes.length ≠ actual.ParamTypes.length ∨
  expect.ReturnTypes.length ≠ actual.ReturnTypes.length ∨
  (∃ i, i < expect.ParamTypes.length ∧ expect.ParamTypes[i]? ≠ actual.ParamTypes[i]?) ∨
  (∃ i, i < expect.ReturnTypes.length ∧ expect.ReturnTypes[i]? ≠ actual.ReturnTypes[i]?)

/-- Signature with two parameters of tag 127 and one result of tag 127. -/
def sigAdd : FunctionSig := { Form := 96, ParamTypes := [127, 127], ReturnTypes := [127] }

/-- Signature with two parameters of tag 127 and no result. -/
def sigNoReturn : FunctionSig := { Form := 96, ParamTypes := [127, 127], ReturnTypes := [] }

/-- A state about to run `call_indirect` with type index `typeIdx`: the operand stack holds
the arguments 2 and 3 and the table slot 0, which table 0 resolves to function 1. -/
def indirectVM (typeIdx : Nat) : VM :=
  { ctx := { stack := [2, 3, 0], stackCap := 4, locals := [],
             code := [typeIdx, 0, 0, 0, 0, 0, 0, 0], asm := [], pc := 0, curFunc := 5 },
    module := { TypesEntries := [sigAdd, sigNoReturn],
                FunctionIndexSpace := [{ Sig := sigNoReturn }, { Sig := sigAdd }],
                TableIndexSpace := [[1]] },
    compiledFuncs := [addFn, addFn] }

/-- The state `indirectVM typeIdx` after the type index, the reserved field and the table slot
have been consumed. -/
def indirectVMPopped (typeIdx : Nat) : VM :=
  { indirectVM typeIdx with ctx := { (indirectVM typeIdx).ctx with stack := [2, 3], pc := 8 } }

/-- A state about to run `call` with the literal function index 1 from the operand stack that
`indirectVM` has once its table slot is popped. -/
def directVM : VM :=
  { indirectVM 0 with ctx :=
      { (indirectVM 0).ctx with stack := [2, 3], code := [1, 0, 0, 0] } }

/-- A body that returns the owning function index of the frame it runs in. -/
def ownerBody : ExecCode := fun _ s => .ok s.ctx.curFunc.toNat s

/-- The set of kinds named by the specification of the host adapter. -/
def supportedKinds : List Kind :=
  [.Float32, .Float64, .Uint32, .Uint64, .Int32, .Int64]

/-- Float conversions that leave the bit pattern alone (for concrete evaluation only). -/
def idFloat : FloatConv := { narrow := fun x => x, widen := fun x => x }

/-- Host callable `func(a int32, b int64, rest ...uint32) uint64`, which returns the number of
fixed arguments it received times 10 plus the number of variadic ones. -/
def countingHost : goFunction :=
  { val := fun fixed rest => [.val .Uint64 (10 * fixed.length + rest.length)],
    typ := { fixed := [{ kind := .Int32, fromProcess := false },
                       { kind := .Int64, fromProcess := false }],
             variadicElem := some { kind := .Uint32, fromProcess := false },
             outs := [{ kind := .Uint64, fromProcess := false }] } }

/-- A state whose function 0 has five parameters and whose operand stack holds five argument
words above the word 9. -/
def hostVM : VM :=
  { ctx := { stack := [9, 1, 2, 3, 4, 5], stackCap := 8, locals := [7], code := [], asm := [],
             pc := 3, curFunc := 2 },
    module := { TypesEntries := [],
                FunctionIndexSpace :=
                  [{ Sig := { Form := 96, ParamTypes := [127, 126, 127, 127, 127],
                              ReturnTypes := [126] } }],
                TableIndexSpace := [] },
    compiledFuncs := [] }

/-- Two states agree on everything but the operand stack and its capacity. -/
def sameFrame (a b : VM) : Prop :=
  a.ctx.locals = b.ctx.locals ∧ a.ctx.code = b.ctx.code ∧ a.ctx.asm = b.ctx.asm ∧
  a.ctx.pc = b.ctx.pc ∧ a.ctx.curFunc = b.ctx.curFunc ∧ a.module = b.module ∧
  a.compiledFuncs = b.compiledFuncs

/-- A body that returns the number of words on the operand stack of the frame it starts in. -/
def depthBody : ExecCode := fun _ s => .ok s.ctx.stack.length s

/-- The type `*exec.Process` of the execution handle. -/
def processType : GoType := { kind := .Ptr, fromProcess := true, str := "*exec.Process" }

/-- Host callable `func(p *exec.Process, a int32, b float64) int64`. -/
def sampleHost : GoValue :=
  { kind := .Func,
    typ := { fixed := [processType, { kind := .Int32, fromProcess := false },
                       { kind := .Float64, fromProcess := false }],
             variadicElem := none,
             outs := [{ kind := .Int64, fromProcess := false }] },
    ident := 1 }

/-- A module with one function and one type. -/
def sampleModule : Module :=
  { TypesEntries := [sigAdd], FunctionIndexSpace := [{ Sig := sigAdd }],
    TableIndexSpace := [] }

/-- The name under which `sampleHost` is exported. -/
def sampleName : String := "host_add"

/-- A UTF-8 check that accepts every byte sequence (for concrete evaluation only). -/
def anyBytes : List Nat → Bool := fun _ => true

/-- Two entries of a name section: function 0 named `f` and function 300 named `go`. -/
def sampleNames : List CustomName :=
  [{ Index := 0, Name := [102] }, { Index := 300, Name := [103, 111] }]

/-- A loader whose header reader takes four little-endian bytes, whose only section
declares one entry importing from the module `env`, and whose other steps succeed. -/
def demoLoader : Loader :=
  { readU32 := fun r =>
      match r with
      | a :: b :: c :: d :: rest => .ok (a + 256 * b + 65536 * c + 16777216 * d, rest)
      | _ => .error .unexpectedEOF,
    readSection := fun m r => .ok (true, { m with Import := some ["env"] }, r),
    link := fun m _ _ => .ok m,
    populateGlobals := fun m => .ok m,
    populateFunctions := fun m => .ok m,
    populateTables := fun m => .ok m,
    populateLinearMemory := fun m => .ok m }

/-- A resolver that knows no module. -/
def failingResolver : ResolveFunc := fun _ => .error (.other 7)

/-- Header of a binary module: the magic number and version 1. -/
def demoHeader : List Nat := [0, 97, 115, 109, 1, 0, 0, 0]

/-! ## Lemmas on the operand stack -/

theorem popUint64_append (vm : VM) (base : List Nat) (w : Nat)
    (h : vm.ctx.stack = base ++ [w]) :
    vm.popUint64 = .ok w { vm with ctx := { vm.ctx with stack := base } } := by
  simp [VM.popUint64, h]

theorem popArgs_exact : ∀ (n : Nat) (ws locals base : List Nat) (vm : VM),
    vm.ctx.stack = base ++ ws → ws.length = n → n ≤ locals.length →
    popArgs n locals vm
      = .ok (ws ++ locals.drop n) { vm with ctx := { vm.ctx with stack := base } } := by
  intro n
  induction n with
  | zero =>
    intro ws locals base vm hs hl _
    have hws : ws = [] := List.length_eq_zero.mp hl
    subst hws
    simp at hs
    simp [popArgs, ← hs]
  | succ n ih =>
    intro ws locals base vm hs hl hle
    obtain ⟨ws1, a, rfl⟩ : ∃ ws1 a, ws = ws1 ++ [a] := by
      rcases List.eq_nil_or_concat ws with h | ⟨l, a, h⟩
      · subst h; simp at hl
      · exact ⟨l, a, by simpa using h⟩
    have hl1 : ws1.length = n := by simpa using hl
    have hpop := popUint64_append vm (base ++ ws1) a (by simpa using hs)
    have hlt : n < locals.length := hle
    rw [popArgs, hpop]
    simp only [hlt, if_true]
    rw [ih ws1 (locals.set n a) base
      { vm with ctx := { vm.ctx with stack := base ++ ws1 } } rfl hl1
      (by simpa using Nat.le_of_lt hlt)]
    have hd : (locals.set n a).drop n = a :: locals.drop (n + 1) := by
      rw [List.drop_eq_getElem_cons (by simpa using hlt)]
      simp [List.drop_set_of_lt]
    simp [hd]

theorem split_top (l : List Nat) (n : Nat) (h : n ≤ l.length) :
    l = l.take (l.length - n) ++ l.drop (l.length - n) ∧ (l.drop (l.length - n)).length = n := by
  refine ⟨(List.take_append_drop _ _).symm, ?_⟩
  simp only [List.length_drop]
  omega

theorem doCallEnter_exact (vm : VM) (c : compiledFunction) (idx : Int) (base ws : List Nat)
    (hs : vm.ctx.stack = base ++ ws) (hl : ws.length = c.args)
    (hle : c.args ≤ c.totalLocalVars) :
    vm.doCallEnter c idx
      = .ok { vm.ctx with stack := base }
          { vm with ctx :=
              { stack := List.replicate c.maxDepth 0, stackCap := c.maxDepth,
                locals := ws ++ List.replicate (c.totalLocalVars - c.args) 0,
                code := c.code, asm := [], pc := 0, curFunc := idx } } := by
  unfold VM.doCallEnter
  simp only
  rw [popArgs_exact c.args ws _ base vm hs hl (by simpa using hle)]
  simp

theorem callEnter_exact (vm : VM) (c : compiledFunction) (idx : Int) (base ws : List Nat)
    (hs : vm.ctx.stack = base ++ ws) (hl : ws.length = c.args)
    (hle : c.args ≤ c.totalLocalVars) :
    c.callEnter vm idx
      = .ok { vm.ctx with stack := base }
          { vm with ctx :=
              { stack := [], stackCap := c.maxDepth + 1,
                locals := ws ++ List.replicate (c.totalLocalVars - c.args) 0,
                code := c.code, asm := c.asm, pc := 0, curFunc := idx } } := by
  unfold compiledFunction.callEnter
  simp only
  rw [popArgs_exact c.args ws _ base vm hs hl (by simpa using hle)]
  simp

theorem popArgs_ok_bound (n : Nat) (locals : List Nat) (vm : VM) (r : List Nat) (s : VM)
    (h : popArgs (n + 1) locals vm = .ok r s) : n < locals.length := by
  unfold popArgs at h
  cases hp : vm.popUint64 with
  | panic e s0 => simp [hp] at h
  | ok w s0 =>
    simp only [hp] at h
    by_contra hn
    simp [hn] at h

theorem popArgs_ok_le (n : Nat) (locals : List Nat) (vm : VM) (r : List Nat) (s : VM)
    (h : popArgs n locals vm = .ok r s) : n ≤ locals.length := by
  cases n with
  | zero => exact Nat.zero_le _
  | succ m => exact popArgs_ok_bound m locals vm r s h

/-! ## Stack balance, argument order and context restore of a call -/

/-- C1. When the caller's operand stack holds at least `args` words, `args` does not exceed
`totalLocalVars`, and the body, run on the frame the call installs, returns `rtrn`, then
`doCall` returns normally with a caller stack of depth `before - args + (1 if returns)`, whose
top word is `rtrn` when the function returns a value. The same holds for
`compiledFunction.call`. -/
theorem doCall_stack_balance (execCode : ExecCode) (vm : VM) (c : compiledFunction)
    (idx : Int) (hargs : c.args ≤ c.totalLocalVars) (hstack : c.args ≤ vm.ctx.stack.length) :
    (∀ rtrn s1,
      (∀ prev entry, vm.doCallEnter c idx = .ok prev entry → execCode c entry = .ok rtrn s1) →
      ∃ s2, vm.doCall execCode c idx = .ok () s2 ∧
        s2.ctx.stack.length = vm.ctx.stack.length - c.args + (if c.returns then 1 else 0) ∧
        (c.returns = true → s2.ctx.stack.getLast? = some rtrn)) ∧
    (∀ rtrn s1,
      (∀ prev entry, c.callEnter vm idx = .ok prev entry → execCode c entry = .ok rtrn s1) →
      ∃ s2, c.call execCode vm idx = .ok () s2 ∧
        s2.ctx.stack.length = vm.ctx.stack.length - c.args + (if c.returns then 1 else 0) ∧
        (c.returns = true → s2.ctx.stack.getLast? = some rtrn)) := by
  obtain ⟨hsplit, hlen⟩ := split_top vm.ctx.stack c.args hstack
  have he1 := doCallEnter_exact vm c idx _ _ hsplit hlen hargs
  have he2 := callEnter_exact vm c idx _ _ hsplit hlen hargs
  constructor
  · intro rtrn s1 hbody
    have hb := hbody _ _ he1
    unfold VM.doCall
    rw [he1]
    simp only [hb]
    cases hr : c.returns
    · simp
    · simp [VM.pushUint64]
  · intro rtrn s1 hbody
    have hb := hbody _ _ he2
    unfold compiledFunction.call
    rw [he2]
    simp only [hb]
    cases hr : c.returns
    · simp
    · simp [VM.pushUint64]

/-- Instance of C1: `demoVM` calling `addFn` with the body `constBody`. -/
theorem doCall_stack_balance_witness :
    addFn.args ≤ addFn.totalLocalVars ∧ addFn.args ≤ demoVM.ctx.stack.length ∧
    ∃ s2, demoVM.doCall constBody addFn 1 = .ok () s2 ∧
      s2.ctx.stack.length = demoVM.ctx.stack.length - addFn.args
        + (if addFn.returns then 1 else 0) ∧
      (addFn.returns = true → s2.ctx.stack.getLast? = some 5) :=
  ⟨by decide, by decide,
    (doCall_stack_balance constBody demoVM addFn 1 (by decide) (by decide)).1 5 demoVM
      (fun _ _ _ => rfl)⟩

/-- C2. When the caller pushed the argument words `ws` in order (the last one on top) and the
function takes `ws.length` arguments, the frame in which `doCall` starts the body has
`locals[i] = ws[i]` for every `i < args`, the remaining locals being zero; `doCall` runs the
body on exactly that frame. The frame exists whenever `args ≤ totalLocalVars`. The same holds
for `compiledFunction.call`. -/
theorem doCall_args_left_to_right (vm : VM) (c : compiledFunction) (idx : Int)
    (base ws : List Nat) (hs : vm.ctx.stack = base ++ ws) (hl : ws.length = c.args) :
    (c.args ≤ c.totalLocalVars →
      (∃ prev entry, vm.doCallEnter c idx = .ok prev entry) ∧
      (∃ prev entry, c.callEnter vm idx = .ok prev entry)) ∧
    (∀ prev entry, vm.doCallEnter c idx = .ok prev entry →
      (∀ i, i < c.args → entry.ctx.locals[i]? = ws[i]?) ∧
      entry.ctx.locals = ws ++ List.replicate (c.totalLocalVars - c.args) 0 ∧
      ∀ execCode : ExecCode, vm.doCall execCode c idx =
        (match execCode c entry with
         | .panic e s1 => .panic e s1
         | .ok rtrn s1 =>
           if c.returns then .ok () (VM.pushUint64 { s1 with ctx := prev } rtrn)
           else .ok () { s1 with ctx := prev })) ∧
    (∀ prev entry, c.callEnter vm idx = .ok prev entry →
      (∀ i, i < c.args → entry.ctx.locals[i]? = ws[i]?) ∧
      entry.ctx.locals = ws ++ List.replicate (c.totalLocalVars - c.args) 0 ∧
      ∀ execCode : ExecCode, c.call execCode vm idx =
        (match execCode c entry with
         | .panic e s1 => .panic e s1
         | .ok rtrn s1 =>
           if c.returns then .ok () (VM.pushUint64 { s1 with ctx := prev } rtrn)
           else .ok () { s1 with ctx := prev })) := by
  refine ⟨fun hle => ⟨⟨_, _, doCallEnter_exact vm c idx base ws hs hl hle⟩,
    ⟨_, _, callEnter_exact vm c idx base ws hs hl hle⟩⟩, ?_, ?_⟩
  · intro prev entry he
    have hle : c.args ≤ c.totalLocalVars := by
      unfold VM.doCallEnter at he
      simp only at he
      cases hp : popArgs c.args (List.replicate c.totalLocalVars 0) vm with
      | panic e s0 => simp [hp] at he
      | ok r s0 => simpa using popArgs_ok_le _ _ _ _ _ hp
    have hx := doCallEnter_exact vm c idx base ws hs hl hle
    rw [hx] at he
    injection he with h1 h2
    subst h1 h2
    refine ⟨?_, rfl, ?_⟩
    · intro i hi
      simp only
      rw [List.getElem?_append_left (by omega)]
    · intro execCode
      unfold VM.doCall
      rw [hx]
  · intro prev entry he
    have hle : c.args ≤ c.totalLocalVars := by
      unfold compiledFunction.callEnter at he
      simp only at he
      cases hp : popArgs c.args (List.replicate c.totalLocalVars 0) vm with
      | panic e s0 => simp [hp] at he
      | ok r s0 => simpa using popArgs_ok_le _ _ _ _ _ hp
    have hx := callEnter_exact vm c idx base ws hs hl hle
    rw [hx] at he
    injection he with h1 h2
    subst h1 h2
    refine ⟨?_, rfl, ?_⟩
    · intro i hi
      simp only
      rw [List.getElem?_append_left (by omega)]
    · intro execCode
      unfold compiledFunction.call
      rw [hx]

/-- Instance of C2: `demoVM` pushed 2 and then 3; `addFn` starts with locals 2, 3, 0. -/
theorem doCall_args_left_to_right_witness :
    demoVM.ctx.stack = [9] ++ [2, 3] ∧ [2, 3].length = addFn.args ∧
    demoCallee.ctx.locals = [2, 3] ++ List.replicate (addFn.totalLocalVars - addFn.args) 0 :=
  ⟨rfl, rfl,
    ((doCall_args_left_to_right demoVM addFn 1 [9] [2, 3] rfl rfl).2.1
      { demoVM.ctx with stack := [9] } demoCallee (by decide)).2.1⟩

/-- C5. When the body returns normally, the context current after `doCall` has the caller's
locals, code, native blocks, program counter and owning index, and its operand stack is the
caller's stack without the arguments, followed by the result when the function returns one.
It does not depend on the context `s1.ctx` the body left. The same holds for
`compiledFunction.call`. -/
theorem doCall_restores_caller (execCode : ExecCode) (vm : VM) (c : compiledFunction)
    (idx : Int) (base ws : List Nat) (hs : vm.ctx.stack = base ++ ws)
    (hl : ws.length = c.args) (hargs : c.args ≤ c.totalLocalVars) :
    (∀ rtrn s1,
      (∀ prev entry, vm.doCallEnter c idx = .ok prev entry → execCode c entry = .ok rtrn s1) →
      ∃ s2, vm.doCall execCode c idx = .ok () s2 ∧
        s2.ctx.locals = vm.ctx.locals ∧ s2.ctx.code = vm.ctx.code ∧
        s2.ctx.asm = vm.ctx.asm ∧ s2.ctx.pc = vm.ctx.pc ∧ s2.ctx.curFunc = vm.ctx.curFunc ∧
        s2.ctx.stack = base ++ (if c.returns then [rtrn] else []) ∧
        s2.module = s1.module ∧ s2.compiledFuncs = s1.compiledFuncs) ∧
    (∀ rtrn s1,
      (∀ prev entry, c.callEnter vm idx = .ok prev entry → execCode c entry = .ok rtrn s1) →
      ∃ s2, c.call execCode vm idx = .ok () s2 ∧
        s2.ctx.locals = vm.ctx.locals ∧ s2.ctx.code = vm.ctx.code ∧
        s2.ctx.asm = vm.ctx.asm ∧ s2.ctx.pc = vm.ctx.pc ∧ s2.ctx.curFunc = vm.ctx.curFunc ∧
        s2.ctx.stack = base ++ (if c.returns then [rtrn] else []) ∧
        s2.module = s1.module ∧ s2.compiledFuncs = s1.compiledFuncs) := by
  have he1 := doCallEnter_exact vm c idx base ws hs hl hargs
  have he2 := callEnter_exact vm c idx base ws hs hl hargs
  constructor
  · intro rtrn s1 hbody
    have hb := hbody _ _ he1
    unfold VM.doCall
    rw [he1]
    simp only [hb]
    cases hr : c.returns <;> simp [VM.pushUint64]
  · intro rtrn s1 hbody
    have hb := hbody _ _ he2
    unfold compiledFunction.call
    rw [he2]
    simp only [hb]
    cases hr : c.returns <;> simp [VM.pushUint64]

/-- Instance of C5: `demoVM` calling `addFn` with the body `constBody`. -/
theorem doCall_restores_caller_witness :
    demoVM.ctx.stack = [9] ++ [2, 3] ∧ [2, 3].length = addFn.args ∧
    addFn.args ≤ addFn.totalLocalVars ∧
    ∃ s2, demoVM.doCall constBody addFn 1 = .ok () s2 ∧
      s2.ctx.locals = demoVM.ctx.locals ∧ s2.ctx.code = demoVM.ctx.code ∧
      s2.ctx.asm = demoVM.ctx.asm ∧ s2.ctx.pc = demoVM.ctx.pc ∧
      s2.ctx.curFunc = demoVM.ctx.curFunc ∧
      s2.ctx.stack = [9] ++ (if addFn.returns then [5] else []) ∧
      s2.module = demoVM.module ∧ s2.compiledFuncs = demoVM.compiledFuncs :=
  ⟨rfl, rfl, by decide,
    (doCall_restores_caller constBody demoVM addFn 1 [9] [2, 3] rfl rfl (by decide)).1 5 demoVM
      (fun _ _ _ => rfl)⟩

/-- C6, refuted as stated: when the body traps, `doCall` and `compiledFunction.call` leave the
VM with the callee frame as its current context; it is neither the caller's context as it was
before the call nor the caller's context with the arguments popped. -/
theorem doCall_abort_leaves_callee_frame :
    demoVM.doCall trapBody addFn 1 = .panic .ErrSignatureMismatch demoCallee ∧
    addFn.call trapBody demoVM 1 = .panic .ErrSignatureMismatch demoCalleeNative ∧
    demoCallee.ctx ≠ demoVM.ctx ∧ demoCallee.ctx ≠ { demoVM.ctx with stack := [9] } ∧
    demoCalleeNative.ctx ≠ demoVM.ctx ∧
    demoCalleeNative.ctx ≠ { demoVM.ctx with stack := [9] } ∧
    demoCallee.ctx.curFunc = 1 ∧ demoVM.ctx.curFunc = 4 := by
  decide

/-- C6, amended. The caller's context is restored when the body returns normally. When the
body aborts with error `e` in state `s1`, `doCall` and `compiledFunction.call` abort with the
same error and leave the VM in state `s1` unchanged: the current context stays the one the
body left, and the saved caller context is not reinstalled. -/
theorem doCall_restore_only_on_return (execCode : ExecCode) (vm : VM) (c : compiledFunction)
    (idx : Int) (hargs : c.args ≤ c.totalLocalVars) (hstack : c.args ≤ vm.ctx.stack.length) :
    (∀ e s1,
      (∀ prev entry, vm.doCallEnter c idx = .ok prev entry → execCode c entry = .panic e s1) →
      vm.doCall execCode c idx = .panic e s1) ∧
    (∀ e s1,
      (∀ prev entry, c.callEnter vm idx = .ok prev entry → execCode c entry = .panic e s1) →
      c.call execCode vm idx = .panic e s1) ∧
    (∀ rtrn s1,
      (∀ prev entry, vm.doCallEnter c idx = .ok prev entry → execCode c entry = .ok rtrn s1) →
      ∃ s2, vm.doCall execCode c idx = .ok () s2 ∧
        s2.ctx.locals = vm.ctx.locals ∧ s2.ctx.code = vm.ctx.code ∧
        s2.ctx.pc = vm.ctx.pc ∧ s2.ctx.curFunc = vm.ctx.curFunc) ∧
    (∀ rtrn s1,
      (∀ prev entry, c.callEnter vm idx = .ok prev entry → execCode c entry = .ok rtrn s1) →
      ∃ s2, c.call execCode vm idx = .ok () s2 ∧
        s2.ctx.locals = vm.ctx.locals ∧ s2.ctx.code = vm.ctx.code ∧
        s2.ctx.pc = vm.ctx.pc ∧ s2.ctx.curFunc = vm.ctx.curFunc) := by
  obtain ⟨hsplit, hlen⟩ := split_top vm.ctx.stack c.args hstack
  have he1 := doCallEnter_exact vm c idx _ _ hsplit hlen hargs
  have he2 := callEnter_exact vm c idx _ _ hsplit hlen hargs
  refine ⟨?_, ?_, ?_, ?_⟩
  · intro e s1 hbody
    have hb := hbody _ _ he1
    unfold VM.doCall
    rw [he1]
    simp only [hb]
  · intro e s1 hbody
    have hb := hbody _ _ he2
    unfold compiledFunction.call
    rw [he2]
    simp only [hb]
  · intro rtrn s1 hbody
    have hb := hbody _ _ he1
    unfold VM.doCall
    rw [he1]
    simp only [hb]
    cases hr : c.returns <;> simp [VM.pushUint64]
  · intro rtrn s1 hbody
    have hb := hbody _ _ he2
    unfold compiledFunction.call
    rw [he2]
    simp only [hb]
    cases hr : c.returns <;> simp [VM.pushUint64]

/-- Instance of the amended C6: the failing body `failBody` called from `demoVM`. -/
theorem doCall_restore_only_on_return_witness :
    addFn.args ≤ addFn.totalLocalVars ∧ addFn.args ≤ demoVM.ctx.stack.length ∧
    demoVM.doCall failBody addFn 1 = .panic (.other 1) demoVM :=
  ⟨by decide, by decide,
    (doCall_restore_only_on_return failBody demoVM addFn 1 (by decide) (by decide)).1
      (.other 1) demoVM (fun _ _ _ => rfl)⟩

/-! ## Indirect calls -/

theorem checkTypes_spec (e a : List ValueType) (hlen : e.length = a.length) :
    ∀ k i, i + k = e.length →
      checkTypes e a k i
        = if e.drop i = a.drop i then none else some Panic.ErrSignatureMismatch := by
  intro k
  induction k with
  | zero =>
    intro i hi
    have h1 : e.drop i = [] := List.drop_eq_nil_of_le (by omega)
    have h2 : a.drop i = [] := List.drop_eq_nil_of_le (by omega)
    simp [checkTypes, h1, h2]
  | succ k ih =>
    intro i hi
    have hie : i < e.length := by omega
    have hia : i < a.length := by omega
    have h1 : e.drop i = e[i] :: e.drop (i + 1) := List.drop_eq_getElem_cons hie
    have h2 : a.drop i = a[i] :: a.drop (i + 1) := List.drop_eq_getElem_cons hia
    rw [checkTypes, List.getElem?_eq_getElem hie, List.getElem?_eq_getElem hia]
    simp only [h1, h2, List.cons.injEq]
    by_cases hne : e[i] = a[i]
    · simp only [hne, ne_eq, not_true_eq_false, if_false, true_and]
      exact ih (i + 1) (by omega)
    · simp [hne]

theorem checkSignature_spec (fe : FunctionSig) (fa : Function) :
    checkSignature fe fa
      = if fe.ParamTypes = fa.Sig.ParamTypes ∧ fe.ReturnTypes = fa.Sig.ReturnTypes then none
        else some Panic.ErrSignatureMismatch := by
  unfold checkSignature
  by_cases hp : fe.ParamTypes.length = fa.Sig.ParamTypes.length
  · by_cases hr : fe.ReturnTypes.length = fa.Sig.ReturnTypes.length
    · have h1 := checkTypes_spec _ _ hp fe.ParamTypes.length 0 (by simp)
      have h2 := checkTypes_spec _ _ hr fe.ReturnTypes.length 0 (by simp)
      simp only [List.drop_zero] at h1 h2
      rw [h1, h2]
      by_cases e1 : fe.ParamTypes = fa.Sig.ParamTypes
      · by_cases e2 : fe.ReturnTypes = fa.Sig.ReturnTypes <;> simp [hp, hr, e1, e2]
      · simp [hp, hr, e1]
    · have e2 : fe.ReturnTypes ≠ fa.Sig.ReturnTypes := fun h => hr (by rw [h])
      simp [hp, hr, e2]
  · have e1 : fe.ParamTypes ≠ fa.Sig.ParamTypes := fun h => hp (by rw [h])
    simp [hp, e1]

theorem list_ne_iff (l1 l2 : List ValueType) :
    l1 ≠ l2 ↔ (l1.length ≠ l2.length ∨ ∃ i, i < l1.length ∧ l1[i]? ≠ l2[i]?) := by
  constructor
  · intro hne
    by_contra hcon
    push_neg at hcon
    apply hne
    apply List.ext_getElem?
    intro n
    by_cases hn : n < l1.length
    · exact hcon.2 n hn
    · rw [List.getElem?_eq_none (by omega), List.getElem?_eq_none (by omega)]
  · rintro (h | ⟨i, _, hi⟩) heq
    · exact h (by rw [heq])
    · exact hi (by rw [heq])

theorem signaturesDiffer_iff (e a : FunctionSig) :
    signaturesDiffer e a ↔ ¬ (e.ParamTypes = a.ParamTypes ∧ e.ReturnTypes = a.ReturnTypes) := by
  have hp := list_ne_iff e.ParamTypes a.ParamTypes
  have hr := list_ne_iff e.ReturnTypes a.ReturnTypes
  unfold signaturesDiffer
  constructor
  · rintro (h | h | h | h) ⟨h1, h2⟩
    · exact hp.mpr (Or.inl h) h1
    · exact hr.mpr (Or.inl h) h2
    · exact hp.mpr (Or.inr h) h1
    · exact hr.mpr (Or.inr h) h2
  · intro h
    by_cases h1 : e.ParamTypes = a.ParamTypes
    · have h2 : e.ReturnTypes ≠ a.ReturnTypes := fun h2 => h ⟨h1, h2⟩
      rcases hr.mp h2 with h3 | h3
      · exact Or.inr (Or.inl h3)
      · exact Or.inr (Or.inr (Or.inr h3))
    · rcases hp.mp h1 with h3 | h3
      · exact Or.inl h3
      · exact Or.inr (Or.inr (Or.inl h3))

/-- C3. Let `callIndirect` fetch the type index `index` (in range of `Types.Entries`) and the
reserved field, pop the table slot, and resolve it through table 0 to the function `elemIndex`
of the function index space. Its signature check raises `ErrSignatureMismatch` exactly when
the expected and the actual signature differ in parameter count, return count or some
positional type, and raises nothing exactly when parameter and return types are equal lists.
On a difference `callIndirect` panics with `ErrSignatureMismatch` in the state reached by the
pop, whatever the body interpreter is (the target is not run); otherwise it is the `doCall` of
the compiled target. -/
theorem callIndirect_signature_check (vm s s1 s2 : VM) (index r tableIndex elemIndex : Nat)
    (table : List Nat) (fnExpect : FunctionSig) (fnActual : Function)
    (h1 : vm.fetchUint32 = .ok index s)
    (hT : s.module.TypesEntries[index]? = some fnExpect)
    (h2 : s.fetchUint32 = .ok r s1)
    (h3 : s1.popUint32 = .ok tableIndex s2)
    (hTab : s2.module.TableIndexSpace[0]? = some table)
    (hEl : table[tableIndex]? = some elemIndex)
    (hF : s2.module.FunctionIndexSpace[elemIndex]? = some fnActual) :
    (checkSignature fnExpect fnActual = some .ErrSignatureMismatch
      ↔ signaturesDiffer fnExpect fnActual.Sig) ∧
    (checkSignature fnExpect fnActual = none
      ↔ (fnExpect.ParamTypes = fnActual.Sig.ParamTypes ∧
         fnExpect.ReturnTypes = fnActual.Sig.ReturnTypes)) ∧
    (signaturesDiffer fnExpect fnActual.Sig →
      ∀ execCode : ExecCode, vm.callIndirect execCode = .panic .ErrSignatureMismatch s2) ∧
    (¬ signaturesDiffer fnExpect fnActual.Sig →
      ∀ compiled, s2.compiledFuncs[elemIndex]? = some compiled →
      ∀ execCode : ExecCode,
        vm.callIndirect execCode = s2.doCall execCode compiled (index : Int)) := by
  have hspec := checkSignature_spec fnExpect fnActual
  have hiff := signaturesDiffer_iff fnExpect fnActual.Sig
  refine ⟨?_, ?_, ?_, ?_⟩
  · rw [hspec, hiff]
    by_cases h : fnExpect.ParamTypes = fnActual.Sig.ParamTypes ∧
        fnExpect.ReturnTypes = fnActual.Sig.ReturnTypes <;> simp [h]
  · rw [hspec]
    by_cases h : fnExpect.ParamTypes = fnActual.Sig.ParamTypes ∧
        fnExpect.ReturnTypes = fnActual.Sig.ReturnTypes <;> simp [h]
  · intro hd execCode
    have hc : checkSignature fnExpect fnActual = some .ErrSignatureMismatch := by
      rw [hspec, if_neg (hiff.mp hd)]
    unfold VM.callIndirect
    simp only [h1, hT, h2, h3, hTab, hEl, hF, hc]
  · intro hd compiled hC execCode
    have hc : checkSignature fnExpect fnActual = none := by
      rw [hspec, if_pos (not_not.mp (fun h => hd (hiff.mpr h)))]
    unfold VM.callIndirect
    simp only [h1, hT, h2, h3, hTab, hEl, hF, hc, hC]

/-- Instance of C3: the expected signature has no result, the target returns one. -/
theorem callIndirect_signature_check_witness :
    (indirectVM 1).fetchUint32
      = .ok 1 { indirectVM 1 with ctx := { (indirectVM 1).ctx with pc := 4 } } ∧
    signaturesDiffer sigNoReturn sigAdd ∧
    (indirectVM 1).callIndirect ownerBody
      = .panic .ErrSignatureMismatch (indirectVMPopped 1) :=
  have hd : signaturesDiffer sigNoReturn sigAdd := Or.inr (Or.inl (by decide))
  ⟨by decide, hd,
    (callIndirect_signature_check (indirectVM 1)
      { indirectVM 1 with ctx := { (indirectVM 1).ctx with pc := 4 } }
      { indirectVM 1 with ctx := { (indirectVM 1).ctx with pc := 8 } }
      (indirectVMPopped 1) 1 0 0 1 [1] sigNoReturn { Sig := sigAdd }
      (by decide) (by decide) (by decide) (by decide) (by decide) (by decide)
      (by decide)).2.2.1 hd ownerBody⟩

/-- C4, evaluated at the failing input. The indirect call with type index 0 resolves to
function 1 and passes the signature check, yet the body runs in a frame whose owning index is
0, the type index; the direct call to function 1 from the same operand stack runs it in a
frame whose owning index is 1. With a body that returns its owning index the two calls leave
different results on the caller's stack. -/
theorem callIndirect_owner_is_type_index :
    ((indirectVM 0).callIndirect ownerBody).state.ctx.stack = [0] ∧
    (directVM.call ownerBody).state.ctx.stack = [1] ∧
    (indirectVM 0).callIndirect ownerBody
      = (indirectVMPopped 0).doCall ownerBody addFn 0 ∧
    directVM.call ownerBody
      = VM.doCall ownerBody { directVM with ctx := { directVM.ctx with pc := 4 } } addFn 1 := by
  decide

/-! ## Value conversion of the host adapter -/

theorem ofSigned_toSigned_64 (w : Nat) (hw : w < 2 ^ 64) : ofSigned 64 (toSigned 64 w) = w := by
  unfold ofSigned toSigned
  norm_num at hw ⊢
  split <;> omega

theorem ofSigned_toSigned_32 (w : Nat) :
    ofSigned 64 (toSigned 32 (ofSigned 32 (toSigned 64 w)))
      = if w % 2 ^ 32 < 2 ^ 31 then w % 2 ^ 32 else w % 2 ^ 32 + (2 ^ 64 - 2 ^ 32) := by
  unfold ofSigned toSigned
  norm_num
  split <;> split <;> split <;> omega

/-- C9, refuted as stated: for the 32-bit kinds the round trip through the adapter does not
return the word. The word `2 ^ 32` comes back as 0 through a `uint32` parameter and the word
`2 ^ 31` comes back as `2 ^ 64 - 2 ^ 31` through an `int32` parameter. -/
theorem roundtrip_32bit_changes_word :
    wasmToReflect idFloat (GoType.newElem { kind := .Uint32, fromProcess := false }) 0 .Uint32
        4294967296 = .ok (.val .Uint32 0) ∧
    pushReturns idFloat [.val .Uint32 0] 0 demoVM = .ok () (demoVM.pushUint64 0) ∧
    wasmToReflect idFloat (GoType.newElem { kind := .Int32, fromProcess := false }) 0 .Int32
        2147483648 = .ok (.val .Int32 2147483648) ∧
    pushReturns idFloat [.val .Int32 2147483648] 0 demoVM
      = .ok () (demoVM.pushUint64 18446744071562067968) :=
  ⟨rfl, by decide, rfl, by decide⟩

/-- C9, amended. For a 64-bit word `w`, converting it as `wasmToReflect` does and pushing the
converted value back as the return path does pushes `w` again for the kinds `Int64` and
`Uint64`. For `Uint32` it pushes `w mod 2 ^ 32`, and for `Int32` the 64-bit sign extension of
the low 32 bits of `w`; so a word comes back unchanged through `Uint32` exactly when it is
below `2 ^ 32`, and through `Int32` exactly when it is the sign extension of its low 32 bits. -/
theorem roundtrip_integer_kinds (fl : FloatConv) (vm : VM) (w i j : Nat) (b : Bool)
    (hw : w < 2 ^ 64) :
    (∃ v, wasmToReflect fl (GoType.newElem { kind := .Int64, fromProcess := b }) i .Int64 w
        = .ok v ∧ pushReturns fl [v] j vm = .ok () (vm.pushUint64 w)) ∧
    (∃ v, wasmToReflect fl (GoType.newElem { kind := .Uint64, fromProcess := b }) i .Uint64 w
        = .ok v ∧ pushReturns fl [v] j vm = .ok () (vm.pushUint64 w)) ∧
    (∃ v, wasmToReflect fl (GoType.newElem { kind := .Uint32, fromProcess := b }) i .Uint32 w
        = .ok v ∧ pushReturns fl [v] j vm = .ok () (vm.pushUint64 (w % 2 ^ 32))) ∧
    (∃ v, wasmToReflect fl (GoType.newElem { kind := .Int32, fromProcess := b }) i .Int32 w
        = .ok v ∧
      pushReturns fl [v] j vm = .ok () (vm.pushUint64
        (if w % 2 ^ 32 < 2 ^ 31 then w % 2 ^ 32 else w % 2 ^ 32 + (2 ^ 64 - 2 ^ 32)))) ∧
    (w % 2 ^ 32 = w ↔ w < 2 ^ 32) ∧
    ((if w % 2 ^ 32 < 2 ^ 31 then w % 2 ^ 32 else w % 2 ^ 32 + (2 ^ 64 - 2 ^ 32)) = w
      ↔ (w < 2 ^ 31 ∨ 2 ^ 64 - 2 ^ 31 ≤ w)) := by
  refine ⟨⟨_, rfl, ?_⟩, ⟨_, rfl, ?_⟩, ⟨_, rfl, ?_⟩, ⟨_, rfl, ?_⟩, ?_, ?_⟩
  · simp only [pushReturns, Value.Kind, Value.Int, Kind.intWidth, VM.pushInt64]
    rw [show toSigned 64 (ofSigned 64 (toSigned 64 w)) = toSigned 64 w by
      rw [ofSigned_toSigned_64 w hw], ofSigned_toSigned_64 w hw]
  · simp only [pushReturns, Value.Kind, Value.Uint, Kind.uintWidth]
    rw [Nat.mod_mod, Nat.mod_eq_of_lt hw]
  · simp only [pushReturns, Value.Kind, Value.Uint, Kind.uintWidth]
    rw [Nat.mod_mod]
  · simp only [pushReturns, Value.Kind, Value.Int, Kind.intWidth, VM.pushInt64]
    rw [ofSigned_toSigned_32]
  · norm_num at hw ⊢
  · norm_num at hw ⊢
    split <;> omega

/-- Instance of the amended C9 at the word 7. -/
theorem roundtrip_integer_kinds_witness :
    7 < 2 ^ 64 ∧
    ∃ v, wasmToReflect idFloat (GoType.newElem { kind := .Int64, fromProcess := false }) 0
        .Int64 7 = .ok v ∧ pushReturns idFloat [v] 0 demoVM = .ok () (demoVM.pushUint64 7) :=
  ⟨by norm_num, (roundtrip_integer_kinds idFloat demoVM 7 0 0 false (by norm_num)).1⟩

theorem wasmToReflect_error_iff (fl : FloatConv) (t : GoType) (i raw : Nat) :
    (∃ e, wasmToReflect fl t.newElem i t.kind raw = .error e) ↔ t.kind ∉ supportedKinds := by
  obtain ⟨k, b⟩ := t
  cases k <;>
    simp [wasmToReflect, GoType.newElem, Value.SetFloat, Value.SetUint, Value.SetInt,
      Kind.intWidth, Kind.uintWidth, supportedKinds]

theorem pushReturns_panic_iff (fl : FloatConv) :
    ∀ (rtrns : List Value) (i : Nat) (vm : VM),
      (∃ e s, pushReturns fl rtrns i vm = .panic e s)
        ↔ ∃ v, v ∈ rtrns ∧ v.Kind ∉ supportedKinds := by
  intro rtrns
  induction rtrns with
  | nil => intro i vm; simp [pushReturns]
  | cons out rest ih =>
    intro i vm
    cases out with
    | proc idx => simp [pushReturns, Value.Kind, supportedKinds]
    | invalid => simp [pushReturns, Value.Kind, supportedKinds]
    | val k b =>
      cases k <;>
        simp [pushReturns, Value.Kind, Value.Float, Value.Uint, Value.Int, Kind.intWidth,
          Kind.uintWidth, supportedKinds, ih]

/-- C10. With the variable created from the parameter type, as both loops of
`goFunction.call` do, `wasmToReflect` panics exactly when the kind is outside
`Float32, Float64, Uint32, Uint64, Int32, Int64`, and yields a value for every kind inside;
the return loop of `goFunction.call` panics exactly when some returned value has a kind
outside that set, and completes normally when all kinds are inside. -/
theorem supported_kinds_exact (fl : FloatConv) (t : GoType) (i raw : Nat)
    (rtrns : List Value) (j : Nat) (vm : VM) :
    ((∃ e, wasmToReflect fl t.newElem i t.kind raw = .error e) ↔ t.kind ∉ supportedKinds) ∧
    ((∃ v, wasmToReflect fl t.newElem i t.kind raw = .ok v) ↔ t.kind ∈ supportedKinds) ∧
    ((∃ e s, pushReturns fl rtrns j vm = .panic e s)
      ↔ ∃ v, v ∈ rtrns ∧ v.Kind ∉ supportedKinds) ∧
    ((∃ s, pushReturns fl rtrns j vm = .ok () s)
      ↔ ∀ v, v ∈ rtrns → v.Kind ∈ supportedKinds) := by
  have h1 := wasmToReflect_error_iff fl t i raw
  have h2 := pushReturns_panic_iff fl rtrns j vm
  refine ⟨h1, ?_, h2, ?_⟩
  · constructor
    · rintro ⟨v, hv⟩
      by_contra hn
      obtain ⟨e, he⟩ := h1.mpr hn
      rw [hv] at he
      cases he
    · intro hin
      cases hr : wasmToReflect fl t.newElem i t.kind raw with
      | ok v => exact ⟨v, rfl⟩
      | error e => exact absurd hin (h1.mp ⟨e, hr⟩)
  · constructor
    · rintro ⟨s, hs⟩ v hv
      by_contra hn
      obtain ⟨e, s0, he⟩ := h2.mpr ⟨v, hv, hn⟩
      rw [hs] at he
      cases he
    · intro hall
      cases hr : pushReturns fl rtrns j vm with
      | ok u s => exact ⟨s, rfl⟩
      | panic e s =>
        obtain ⟨v, hv, hn⟩ := h2.mp ⟨e, s, hr⟩
        exact absurd (hall v hv) hn

/-! ## Host calls: marshalling lemmas -/

theorem popUint64_inv (vm s : VM) (w : Nat) (h : vm.popUint64 = .ok w s) :
    vm.ctx.stack = s.ctx.stack ++ [w] ∧
    s = { vm with ctx := { vm.ctx with stack := s.ctx.stack } } := by
  unfold VM.popUint64 at h
  cases hl : vm.ctx.stack.getLast? with
  | none => simp [hl] at h
  | some a =>
    simp only [hl] at h
    injection h with h1 h2
    subst h1 h2
    exact ⟨(List.dropLast_append_getLast? a (by simp [hl])).symm, rfl⟩

theorem wasmToReflect_ok_eq (fl : FloatConv) (t : GoType) (i raw : Nat) (v : Value)
    (h : wasmToReflect fl t.newElem i t.kind raw = .ok v) : v = convertWord fl t raw := by
  obtain ⟨k, b⟩ := t
  cases k <;>
    simp_all [wasmToReflect, convertWord, GoType.newElem, Value.SetFloat, Value.SetUint,
      Value.SetInt, Kind.intWidth, Kind.uintWidth]

theorem wasmToReflect_supported (fl : FloatConv) (t : GoType) (i raw : Nat)
    (h : t.kind ∈ supportedKinds) :
    wasmToReflect fl t.newElem i t.kind raw = .ok (convertWord fl t raw) ∧
    convertWord fl t raw ≠ Value.invalid := by
  obtain ⟨k, b⟩ := t
  cases k <;>
    simp_all [wasmToReflect, convertWord, GoType.newElem, Value.SetFloat, Value.SetUint,
      Value.SetInt, Kind.intWidth, Kind.uintWidth, supportedKinds]

/-- A state that differs from `vm` at most in the contents of the operand stack. -/
theorem restack_eq (vm : VM) (l : List Nat) (h : vm.ctx.stack = l) :
    { vm with ctx := { vm.ctx with stack := l } } = vm := by
  subst h
  rfl

theorem fixedLoop_inv (fl : FloatConv) (typ : FuncType) (lo : Nat) :
    ∀ (hi : Nat) (args : List Value) (vm : VM) (args1 : List Value) (s : VM),
      fixedLoop fl typ lo hi args vm = .ok args1 s →
      ∃ ws, vm.ctx.stack = s.ctx.stack ++ ws ∧ ws.length = hi - lo ∧
        s = { vm with ctx := { vm.ctx with stack := s.ctx.stack } } ∧
        args1.length = args.length ∧ (lo < hi → hi ≤ args.length) := by
  intro hi
  induction hi with
  | zero =>
    intro args vm args1 s h
    simp only [fixedLoop] at h
    injection h with h1 h2
    subst h1 h2
    exact ⟨[], by simp, by simp, rfl, rfl, by omega⟩
  | succ i ih =>
    intro args vm args1 s h
    rw [fixedLoop] at h
    by_cases hlo : i < lo
    · simp only [hlo, if_true] at h
      injection h with h1 h2
      subst h1 h2
      exact ⟨[], by simp, by simp; omega, rfl, rfl, by omega⟩
    · simp only [hlo, if_false] at h
      cases hin : typ.In i with
      | none => simp [hin] at h
      | some t =>
        simp only [hin] at h
        cases hp : vm.popUint64 with
        | panic e s0 => simp [hp] at h
        | ok raw s0 =>
          simp only [hp] at h
          cases hw : wasmToReflect fl t.newElem i t.kind raw with
          | error e => simp [hw] at h
          | ok v =>
            simp only [hw] at h
            by_cases hia : i < args.length
            · simp only [hia, if_true] at h
              obtain ⟨ws, h1, h2, h3, h4, _⟩ := ih _ _ _ _ h
              obtain ⟨hp1, hp2⟩ := popUint64_inv vm s0 raw hp
              refine ⟨ws ++ [raw], ?_, ?_, ?_, ?_, fun _ => hia⟩
              · rw [hp1, h1, List.append_assoc]
              · simp only [List.length_append, List.length_singleton, h2]
                omega
              · rw [h3, hp2]
              · simpa using h4
            · simp [hia] at h

theorem variadicLoop_inv (fl : FloatConv) (typ : GoType) (lo : Nat) :
    ∀ (hi : Nat) (args : List Value) (vm : VM) (args1 : List Value) (s : VM),
      variadicLoop fl typ lo hi args vm = .ok args1 s →
      ∃ ws, vm.ctx.stack = s.ctx.stack ++ ws ∧ ws.length = hi - lo ∧
        s = { vm with ctx := { vm.ctx with stack := s.ctx.stack } } ∧
        args1.length = args.length := by
  intro hi
  induction hi with
  | zero =>
    intro args vm args1 s h
    simp only [variadicLoop] at h
    injection h with h1 h2
    subst h1 h2
    exact ⟨[], by simp, by simp, rfl, rfl⟩
  | succ i ih =>
    intro args vm args1 s h
    rw [variadicLoop] at h
    by_cases hlo : i < lo
    · simp only [hlo, if_true] at h
      injection h with h1 h2
      subst h1 h2
      exact ⟨[], by simp, by simp; omega, rfl, rfl⟩
    · simp only [hlo, if_false] at h
      cases hp : vm.popUint64 with
      | panic e s0 => simp [hp] at h
      | ok raw s0 =>
        simp only [hp] at h
        cases hw : wasmToReflect fl typ.newElem i typ.kind raw with
        | error e => simp [hw] at h
        | ok v =>
          simp only [hw] at h
          by_cases hia : i < args.length
          · simp only [hia, if_true] at h
            obtain ⟨ws, h1, h2, h3, h4⟩ := ih _ _ _ _ h
            obtain ⟨hp1, hp2⟩ := popUint64_inv vm s0 raw hp
            refine ⟨ws ++ [raw], ?_, ?_, ?_, ?_⟩
            · rw [hp1, h1, List.append_assoc]
            · simp only [List.length_append, List.length_singleton, h2]
              omega
            · rw [h3, hp2]
            · simpa using h4
          · simp [hia] at h

theorem pushReturns_inv (fl : FloatConv) :
    ∀ (rtrns : List Value) (i : Nat) (vm s : VM),
      pushReturns fl rtrns i vm = .ok () s →
      ∃ words, words.length = rtrns.length ∧ s.ctx.stack = vm.ctx.stack ++ words ∧
        sameFrame s vm := by
  intro rtrns
  induction rtrns with
  | nil =>
    intro i vm s h
    simp only [pushReturns] at h
    injection h with _ h2
    subst h2
    exact ⟨[], rfl, by simp, rfl, rfl, rfl, rfl, rfl, rfl, rfl⟩
  | cons out rest ih =>
    intro i vm s h
    have step : ∀ x, pushReturns fl rest (i + 1) (vm.pushUint64 x) = .ok () s →
        ∃ words, words.length = (out :: rest).length ∧ s.ctx.stack = vm.ctx.stack ++ words ∧
          sameFrame s vm := by
      intro x hx
      obtain ⟨words, h1, h2, h3⟩ := ih _ _ _ hx
      refine ⟨x :: words, by simp [h1], ?_, ?_⟩
      · rw [h2]
        simp [VM.pushUint64]
      · simpa [sameFrame, VM.pushUint64] using h3
    cases out with
    | proc idx => simp [pushReturns, Value.Kind] at h
    | invalid => simp [pushReturns, Value.Kind] at h
    | val k b =>
      cases k <;>
        first
        | (simp [pushReturns, Value.Kind] at h; done)
        | (simp only [pushReturns, Value.Kind, Value.Float, Value.Uint, Value.Int,
            Kind.intWidth, Kind.uintWidth, VM.pushInt64, VM.pushFloat64] at h
           exact step _ h)

theorem take_set_of_le (l : List Value) (lo i : Nat) (v : Value) (h : lo ≤ i) :
    (l.set i v).take lo = l.take lo := by
  rw [List.set_take]
  exact List.set_eq_of_length_le (by simp; omega)

theorem drop_set_self (l : List Value) (i : Nat) (v : Value) (h : i < l.length) :
    (l.set i v).drop i = v :: l.drop (i + 1) := by
  rw [List.drop_eq_getElem_cons (by simpa using h)]
  simp [List.drop_set_of_lt]

theorem snoc_of_length_succ {α : Type} (l : List α) (n : Nat) (h : l.length = n + 1) :
    ∃ l1 a, l = l1 ++ [a] ∧ l1.length = n := by
  rcases List.eq_nil_or_concat l with h0 | ⟨l1, a, h0⟩
  · subst h0; simp at h
  · refine ⟨l1, a, by simpa using h0, ?_⟩
    subst h0
    simpa using h

theorem fixedLoop_stop (fl : FloatConv) (typ : FuncType) (lo : Nat) (args : List Value)
    (vm : VM) : fixedLoop fl typ lo lo args vm = .ok args vm := by
  cases lo with
  | zero => rfl
  | succ l => rw [fixedLoop]; simp

theorem variadicLoop_stop (fl : FloatConv) (typ : GoType) (lo hi : Nat) (args : List Value)
    (vm : VM) (h : hi ≤ lo) : variadicLoop fl typ lo hi args vm = .ok args vm := by
  cases hi with
  | zero => rfl
  | succ l =>
    rw [variadicLoop]
    have : l < lo := h
    simp [this]

theorem fixedLoop_exact (fl : FloatConv) (typ : FuncType) (lo : Nat) :
    ∀ (n : Nat) (tys : List GoType) (ws : List Nat) (args : List Value) (vm : VM)
      (base : List Nat),
      tys.length = n → ws.length = n →
      (∀ j, j < n → typ.In (lo + j) = tys[j]?) →
      (∀ t, t ∈ tys → t.kind ∈ supportedKinds) →
      vm.ctx.stack = base ++ ws → lo + n ≤ args.length →
      fixedLoop fl typ lo (lo + n) args vm
        = .ok (args.take lo ++ List.zipWith (convertWord fl) tys ws ++ args.drop (lo + n))
            { vm with ctx := { vm.ctx with stack := base } } := by
  intro n
  induction n with
  | zero =>
    intro tys ws args vm base ht hw _ _ hs _
    have h1 : tys = [] := List.length_eq_zero.mp ht
    have h2 : ws = [] := List.length_eq_zero.mp hw
    subst h1 h2
    simp only [List.append_nil] at hs
    rw [Nat.add_zero, fixedLoop_stop, restack_eq vm base hs]
    simp
  | succ n ih =>
    intro tys ws args vm base ht hw hin hk hs hle
    obtain ⟨tys1, t, rfl, ht1⟩ := snoc_of_length_succ tys n ht
    obtain ⟨ws1, a, rfl, hw1⟩ := snoc_of_length_succ ws n hw
    have hpop := popUint64_append vm (base ++ ws1) a (by simpa using hs)
    have hint : typ.In (lo + n) = some t := by
      rw [hin n (Nat.lt_succ_self n), List.getElem?_append_right (by omega)]
      simp [ht1]
    have hsup := wasmToReflect_supported fl t (lo + n) a (hk t (by simp))
    have hlt : lo + n < args.length := by omega
    have hnlo : ¬ (lo + n < lo) := by omega
    rw [show lo + (n + 1) = (lo + n) + 1 from rfl, fixedLoop]
    simp only [hnlo, if_false, hint, hpop, hsup.1, hlt, if_true]
    rw [ih tys1 ws1 (args.set (lo + n) (convertWord fl t a))
      { vm with ctx := { vm.ctx with stack := base ++ ws1 } } base ht1 hw1
      (fun j hj => by
        rw [hin j (by omega), List.getElem?_append_left (by omega)])
      (fun t0 ht0 => hk t0 (by simp [ht0])) rfl (by simpa using hlt.le)]
    rw [take_set_of_le _ _ _ _ (by omega), drop_set_self _ _ _ hlt,
      List.zipWith_append _ _ _ _ _ (by omega)]
    simp

theorem variadicLoop_exact (fl : FloatConv) (typ : GoType) (lo : Nat)
    (hk : typ.kind ∈ supportedKinds) :
    ∀ (n : Nat) (ws : List Nat) (args : List Value) (vm : VM) (base : List Nat),
      ws.length = n → vm.ctx.stack = base ++ ws → lo + n ≤ args.length →
      variadicLoop fl typ lo (lo + n) args vm
        = .ok (args.take lo ++ ws.map (convertWord fl typ) ++ args.drop (lo + n))
            { vm with ctx := { vm.ctx with stack := base } } := by
  intro n
  induction n with
  | zero =>
    intro ws args vm base hw hs _
    have h2 : ws = [] := List.length_eq_zero.mp hw
    subst h2
    simp only [List.append_nil] at hs
    rw [Nat.add_zero, variadicLoop_stop fl typ lo lo args vm (Nat.le_refl _),
      restack_eq vm base hs]
    simp
  | succ n ih =>
    intro ws args vm base hw hs hle
    obtain ⟨ws1, a, rfl, hw1⟩ := snoc_of_length_succ ws n hw
    have hpop := popUint64_append vm (base ++ ws1) a (by simpa using hs)
    have hsup := wasmToReflect_supported fl typ (lo + n) a hk
    have hlt : lo + n < args.length := by omega
    have hnlo : ¬ (lo + n < lo) := by omega
    rw [show lo + (n + 1) = (lo + n) + 1 from rfl, variadicLoop]
    simp only [hnlo, if_false, hpop, hsup.1, hlt, if_true]
    rw [ih ws1 (args.set (lo + n) (convertWord fl typ a))
      { vm with ctx := { vm.ctx with stack := base ++ ws1 } } base hw1 rfl
      (by simpa using hlt.le)]
    rw [take_set_of_le _ _ _ _ (by omega), drop_set_self _ _ _ hlt]
    simp

theorem In_fixed (typ : FuncType) (i : Nat) (h : i < typ.fixed.length) :
    typ.In i = typ.fixed[i]? := by
  unfold FuncType.In
  rw [List.getElem?_eq_getElem h]

theorem firstIsProc_fixed (fn : goFunction) (h : fn.firstIsProc = true) :
    1 ≤ fn.typ.fixed.length := by
  unfold goFunction.firstIsProc FuncType.In at h
  cases hfx : fn.typ.fixed with
  | nil =>
    rw [hfx] at h
    by_cases hv : fn.typ.IsVariadic = true <;> simp [hv] at h
  | cons a l => simp

theorem marshal_exact (fl : FloatConv) (fn : goFunction) (vm : VM) (index : Int)
    (f : Function) (base wsF wsV : List Nat) (hidx : 0 ≤ index)
    (hf : vm.module.FunctionIndexSpace[index.toNat]? = some f)
    (hp : f.Sig.ParamTypes.length = wsF.length + wsV.length)
    (hfix : fn.typ.fixed.length = (if fn.firstIsProc then 1 else 0) + wsF.length)
    (hvar : fn.typ.variadicElem = none → wsV = [])
    (hs : vm.ctx.stack = base ++ (wsF ++ wsV))
    (hk1 : ∀ t, t ∈ fn.typ.fixed.drop (if fn.firstIsProc then 1 else 0) →
      t.kind ∈ supportedKinds)
    (hk2 : ∀ t, fn.typ.variadicElem = some t → t.kind ∈ supportedKinds) :
    fn.marshal fl vm index
      = .ok ((if fn.firstIsProc then [Value.proc index] else [])
          ++ List.zipWith (convertWord fl)
              (fn.typ.fixed.drop (if fn.firstIsProc then 1 else 0)) wsF
          ++ (match fn.typ.variadicElem with
              | some t => wsV.map (convertWord fl t)
              | none => []))
          { vm with ctx := { vm.ctx with stack := base } } := by
  have hnneg : ¬ index < 0 := by omega
  unfold goFunction.marshal
  simp only [hnneg, if_false, hf]
  cases hb : fn.firstIsProc with
  | false =>
    simp only [hb, Bool.false_eq_true, if_false, Nat.zero_add, List.drop_zero,
      List.nil_append] at hfix hk1 ⊢
    have hIn : ∀ j, j < wsF.length → fn.typ.In (0 + j) = fn.typ.fixed[j]? := by
      intro j hj
      rw [Nat.zero_add, In_fixed _ _ (by omega)]
    cases hv : fn.typ.variadicElem with
    | none =>
      have hwv : wsV = [] := hvar hv
      subst hwv
      have hnv : fn.typ.IsVariadic = false := by simp [FuncType.IsVariadic, hv]
      simp only [List.append_nil, List.length_nil, Nat.add_zero] at hs hp
      have hloop := fixedLoop_exact fl fn.typ 0 wsF.length fn.typ.fixed wsF
        (List.replicate wsF.length Value.invalid) vm base hfix rfl hIn hk1 hs (by simp)
      simp only [Nat.zero_add] at hloop
      simp [hnv, hp, hloop]
    | some t =>
      have hiv : fn.typ.IsVariadic = true := by simp [FuncType.IsVariadic, hv]
      have hs1 : vm.ctx.stack = (base ++ wsF) ++ wsV := by rw [hs, List.append_assoc]
      have hvl := variadicLoop_exact fl t fn.typ.fixed.length (hk2 t hv) wsV.length wsV
        (List.replicate (fn.typ.fixed.length + wsV.length) Value.invalid) vm (base ++ wsF)
        rfl hs1 (by simp)
      have hloop := fixedLoop_exact fl fn.typ 0 wsF.length fn.typ.fixed wsF
        (List.replicate fn.typ.fixed.length Value.invalid ++ wsV.map (convertWord fl t))
        { vm with ctx := { vm.ctx with stack := base ++ wsF } } base hfix rfl hIn hk1 rfl
        (by simp; omega)
      simp only [Nat.zero_add] at hloop
      rw [← hfix] at hloop
      have hnp : f.Sig.ParamTypes.length = fn.typ.fixed.length + wsV.length := by omega
      simp only [hiv, if_true, hnp, hvl]
      simp only [List.take_replicate, List.drop_replicate, Nat.sub_self, List.replicate_zero,
        List.append_nil, Nat.min_eq_left (Nat.le_add_right _ _)]
      simp [hloop]
  | true =>
    have h1 := firstIsProc_fixed fn hb
    simp only [hb, if_true] at hfix hk1 ⊢
    have htys : (fn.typ.fixed.drop 1).length = wsF.length := by
      simp only [List.length_drop]; omega
    have hIn : ∀ j, j < wsF.length → fn.typ.In (1 + j) = (fn.typ.fixed.drop 1)[j]? := by
      intro j hj
      rw [In_fixed _ _ (by omega), List.getElem?_drop]
    cases hv : fn.typ.variadicElem with
    | none =>
      have hwv : wsV = [] := hvar hv
      subst hwv
      have hnv : fn.typ.IsVariadic = false := by simp [FuncType.IsVariadic, hv]
      simp only [List.append_nil, List.length_nil, Nat.add_zero] at hs hp
      have hloop := fixedLoop_exact fl fn.typ 1 wsF.length (fn.typ.fixed.drop 1) wsF
        (List.replicate (1 + wsF.length) Value.invalid) vm base htys rfl hIn hk1 hs (by simp)
      rw [Nat.add_comm 1 wsF.length] at hloop
      simp only [hnv, hp, Bool.false_eq_true, if_false, hloop]
      simp [List.replicate_succ]
    | some t =>
      have hiv : fn.typ.IsVariadic = true := by simp [FuncType.IsVariadic, hv]
      have hs1 : vm.ctx.stack = (base ++ wsF) ++ wsV := by rw [hs, List.append_assoc]
      have hvl := variadicLoop_exact fl t fn.typ.fixed.length (hk2 t hv) wsV.length wsV
        (List.replicate (fn.typ.fixed.length + wsV.length) Value.invalid) vm (base ++ wsF)
        rfl hs1 (by simp)
      have hloop := fixedLoop_exact fl fn.typ 1 wsF.length (fn.typ.fixed.drop 1) wsF
        (List.replicate fn.typ.fixed.length Value.invalid ++ wsV.map (convertWord fl t))
        { vm with ctx := { vm.ctx with stack := base ++ wsF } } base htys rfl hIn hk1 rfl
        (by simp; omega)
      rw [← hfix] at hloop
      have hnp : f.Sig.ParamTypes.length + 1 = fn.typ.fixed.length + wsV.length := by omega
      simp only [hiv, if_true, hnp, hvl]
      simp only [List.take_replicate, List.drop_replicate, Nat.sub_self, List.replicate_zero,
        List.append_nil, Nat.min_eq_left (Nat.le_add_right _ _)]
      simp only [hloop]
      obtain ⟨m, hm⟩ : ∃ m, fn.typ.fixed.length = m + 1 := ⟨fn.typ.fixed.length - 1, by omega⟩
      simp [hm, List.replicate_succ]

theorem marshal_inv (fl : FloatConv) (fn : goFunction) (vm : VM) (index : Int)
    (f : Function) (args : List Value) (s : VM) (hidx : 0 ≤ index)
    (hf : vm.module.FunctionIndexSpace[index.toNat]? = some f)
    (h : fn.marshal fl vm index = .ok args s) :
    ∃ ws, vm.ctx.stack = s.ctx.stack ++ ws ∧ ws.length = f.Sig.ParamTypes.length ∧
      s = { vm with ctx := { vm.ctx with stack := s.ctx.stack } } := by
  have hnneg : ¬ index < 0 := by omega
  unfold goFunction.marshal at h
  simp only [hnneg, if_false, hf] at h
  cases hv : fn.typ.variadicElem with
  | none =>
    have hnv : fn.typ.IsVariadic = false := by simp [FuncType.IsVariadic, hv]
    simp only [hv, hnv, Bool.false_eq_true, if_false] at h
    cases hb : fn.firstIsProc with
    | false =>
      simp only [hb, Bool.false_eq_true, if_false] at h
      cases hl : fixedLoop fl fn.typ 0 f.Sig.ParamTypes.length
          (List.replicate f.Sig.ParamTypes.length Value.invalid) vm with
      | panic e s0 => simp [hl] at h
      | ok a1 s1 =>
        simp only [hl] at h
        simp only [gt_iff_lt, Nat.lt_irrefl, if_false] at h
        injection h with _ h2
        subst h2
        obtain ⟨ws, h1, h2, h3, _, _⟩ := fixedLoop_inv _ _ _ _ _ _ _ _ hl
        exact ⟨ws, h1, by simpa using h2, h3⟩
    | true =>
      simp only [hb, if_true] at h
      cases hl : fixedLoop fl fn.typ 1 (f.Sig.ParamTypes.length + 1)
          (List.replicate (f.Sig.ParamTypes.length + 1) Value.invalid) vm with
      | panic e s0 => simp [hl] at h
      | ok a1 s1 =>
        simp only [hl] at h
        simp only [gt_iff_lt, Nat.lt_one_iff, Nat.zero_lt_one, if_true] at h
        injection h with _ h2
        subst h2
        obtain ⟨ws, h1, h2, h3, _, _⟩ := fixedLoop_inv _ _ _ _ _ _ _ _ hl
        exact ⟨ws, h1, by simpa using h2, h3⟩
  | some t =>
    have hiv : fn.typ.IsVariadic = true := by simp [FuncType.IsVariadic, hv]
    simp only [hv, hiv, if_true] at h
    cases hb : fn.firstIsProc with
    | false =>
      simp only [hb, Bool.false_eq_true, if_false] at h
      cases hvl : variadicLoop fl t fn.typ.fixed.length f.Sig.ParamTypes.length
          (List.replicate f.Sig.ParamTypes.length Value.invalid) vm with
      | panic e s0 => simp [hvl] at h
      | ok a1 s1 =>
        simp only [hvl] at h
        cases hl : fixedLoop fl fn.typ 0 fn.typ.fixed.length a1 s1 with
        | panic e s0 => simp [hl] at h
        | ok a2 s2 =>
          simp only [hl] at h
          simp only [gt_iff_lt, Nat.lt_irrefl, if_false] at h
          injection h with _ h2
          subst h2
          obtain ⟨w1, p1, p2, p3, p4⟩ := variadicLoop_inv _ _ _ _ _ _ _ _ hvl
          obtain ⟨w2, q1, q2, q3, _, q5⟩ := fixedLoop_inv _ _ _ _ _ _ _ _ hl
          refine ⟨w2 ++ w1, ?_, ?_, ?_⟩
          · rw [p1, q1, List.append_assoc]
          · simp only [List.length_append, p2, q2]
            simp only [List.length_replicate] at p4
            by_cases hz : 0 < fn.typ.fixed.length
            · have := q5 hz
              omega
            · omega
          · rw [q3, p3]
    | true =>
      have hfl := firstIsProc_fixed fn hb
      simp only [hb, if_true] at h
      cases hvl : variadicLoop fl t fn.typ.fixed.length (f.Sig.ParamTypes.length + 1)
          (List.replicate (f.Sig.ParamTypes.length + 1) Value.invalid) vm with
      | panic e s0 => simp [hvl] at h
      | ok a1 s1 =>
        simp only [hvl] at h
        cases hl : fixedLoop fl fn.typ 1 fn.typ.fixed.length a1 s1 with
        | panic e s0 => simp [hl] at h
        | ok a2 s2 =>
          simp only [hl] at h
          simp only [gt_iff_lt, Nat.zero_lt_one, if_true] at h
          injection h with _ h2
          subst h2
          obtain ⟨w1, p1, p2, p3, p4⟩ := variadicLoop_inv _ _ _ _ _ _ _ _ hvl
          obtain ⟨w2, q1, q2, q3, _, q5⟩ := fixedLoop_inv _ _ _ _ _ _ _ _ hl
          refine ⟨w2 ++ w1, ?_, ?_, ?_⟩
          · rw [p1, q1, List.append_assoc]
          · simp only [List.length_append, p2, q2]
            simp only [List.length_replicate] at p4
            by_cases hz : 1 < fn.typ.fixed.length
            · have := q5 hz
              omega
            · omega
          · rw [q3, p3]

theorem zipWith_no_invalid (fl : FloatConv) :
    ∀ (tys : List GoType) (ws : List Nat), (∀ t, t ∈ tys → t.kind ∈ supportedKinds) →
      ∀ v, v ∈ List.zipWith (convertWord fl) tys ws → v ≠ Value.invalid := by
  intro tys
  induction tys with
  | nil => intro ws _ v hv; simp at hv
  | cons t rest ih =>
    intro ws hk v hv
    cases ws with
    | nil => simp at hv
    | cons w ws1 =>
      simp only [List.zipWith_cons_cons, List.mem_cons] at hv
      rcases hv with hv | hv
      · rw [hv]
        exact (wasmToReflect_supported fl t 0 w (hk t (by simp))).2
      · exact ih ws1 (fun t0 h0 => hk t0 (by simp [h0])) v hv

theorem Call_inv (fn : goFunction) (args rtrns : List Value) (h : fn.Call args = some rtrns) :
    ∃ a b, rtrns = fn.val a b := by
  unfold goFunction.Call at h
  split at h
  · cases h
  · split at h
    · split at h
      · cases h
      · injection h with h; exact ⟨_, _, h.symm⟩
    · split at h
      · cases h
      · injection h with h; exact ⟨_, _, h.symm⟩

theorem call_exact (fl : FloatConv) (fn : goFunction) (vm : VM) (index : Int)
    (f : Function) (base wsF wsV : List Nat) (hidx : 0 ≤ index)
    (hf : vm.module.FunctionIndexSpace[index.toNat]? = some f)
    (hp : f.Sig.ParamTypes.length = wsF.length + wsV.length)
    (hfix : fn.typ.fixed.length = (if fn.firstIsProc then 1 else 0) + wsF.length)
    (hvar : fn.typ.variadicElem = none → wsV = [])
    (hs : vm.ctx.stack = base ++ (wsF ++ wsV))
    (hk1 : ∀ t, t ∈ fn.typ.fixed.drop (if fn.firstIsProc then 1 else 0) →
      t.kind ∈ supportedKinds)
    (hk2 : ∀ t, fn.typ.variadicElem = some t → t.kind ∈ supportedKinds) :
    fn.Call ((if fn.firstIsProc then [Value.proc index] else [])
          ++ List.zipWith (convertWord fl)
              (fn.typ.fixed.drop (if fn.firstIsProc then 1 else 0)) wsF
          ++ (match fn.typ.variadicElem with
              | some t => wsV.map (convertWord fl t)
              | none => []))
      = some (fn.val
          ((if fn.firstIsProc then [Value.proc index] else [])
            ++ List.zipWith (convertWord fl)
                (fn.typ.fixed.drop (if fn.firstIsProc then 1 else 0)) wsF)
          (match fn.typ.variadicElem with
           | some t => wsV.map (convertWord fl t)
           | none => [])) ∧
    fn.call fl vm index
      = pushReturns fl (fn.val
          ((if fn.firstIsProc then [Value.proc index] else [])
            ++ List.zipWith (convertWord fl)
                (fn.typ.fixed.drop (if fn.firstIsProc then 1 else 0)) wsF)
          (match fn.typ.variadicElem with
           | some t => wsV.map (convertWord fl t)
           | none => [])) 0 { vm with ctx := { vm.ctx with stack := base } } := by
  have hm := marshal_exact fl fn vm index f base wsF wsV hidx hf hp hfix hvar hs hk1 hk2
  have hz := zipWith_no_invalid fl _ wsF hk1
  generalize hH : (if fn.firstIsProc then [Value.proc index] else []) = H at hm ⊢
  generalize hZ : List.zipWith (convertWord fl)
    (fn.typ.fixed.drop (if fn.firstIsProc then 1 else 0)) wsF = Z at hm hz ⊢
  generalize hV : (match fn.typ.variadicElem with
    | some t => wsV.map (convertWord fl t)
    | none => []) = V at hm ⊢
  have hHlen : H.length = (if fn.firstIsProc then 1 else 0) := by
    rw [← hH]; split <;> rfl
  have hZlen : Z.length = wsF.length := by
    rw [← hZ, List.length_zipWith, List.length_drop]; omega
  have hHZ : (H ++ Z).length = fn.typ.fixed.length := by
    rw [List.length_append, hHlen, hZlen, hfix]
  have hHv : ∀ v, v ∈ H → v ≠ Value.invalid := by
    intro v hv
    rw [← hH] at hv
    split at hv
    · simp only [List.mem_singleton] at hv; rw [hv]; simp
    · simp at hv
  have hVv : ∀ v, v ∈ V → v ≠ Value.invalid := by
    intro v hv
    rw [← hV] at hv
    cases hve : fn.typ.variadicElem with
    | none => simp [hve] at hv
    | some t =>
      simp only [hve, List.mem_map] at hv
      obtain ⟨w, _, hw⟩ := hv
      rw [← hw]
      exact (wasmToReflect_supported fl t 0 w (hk2 t hve)).2
  have hany : (H ++ Z ++ V).any (fun a => a == Value.invalid) = false := by
    rw [List.any_eq_false]
    intro v hv
    simp only [List.mem_append] at hv
    have : v ≠ Value.invalid := by
      rcases hv with (hv | hv) | hv
      · exact hHv v hv
      · exact hz v hv
      · exact hVv v hv
    simpa using this
  have hcall : fn.Call (H ++ Z ++ V) = some (fn.val (H ++ Z) V) := by
    unfold goFunction.Call
    simp only [hany, Bool.false_eq_true, if_false]
    cases hve : fn.typ.variadicElem with
    | none =>
      have hVnil : V = [] := by rw [← hV, hve]
      have hnv : fn.typ.IsVariadic = false := by simp [FuncType.IsVariadic, hve]
      subst hVnil
      simp only [hnv, Bool.false_eq_true, if_false, List.append_nil, hHZ, ne_eq,
        not_true_eq_false]
    | some t =>
      have hiv : fn.typ.IsVariadic = true := by simp [FuncType.IsVariadic, hve]
      have hlt : ¬ ((H ++ Z ++ V).length < fn.typ.fixed.length) := by
        rw [List.length_append, hHZ]; omega
      simp only [hiv, if_true, hlt, if_false]
      rw [List.take_left' hHZ, List.drop_left' hHZ]
  refine ⟨hcall, ?_⟩
  unfold goFunction.call
  rw [hm]
  simp only [hcall]

/-! ## Host calls: stack discipline and variadic grouping -/

/-- C7. Let function `index` of the module have `p` parameters in its WASM-visible signature
and let the native callable return `r` values of supported kinds. Whenever
`goFunction.call` returns normally it has popped exactly `p` words from the current operand
stack and pushed exactly `r` words, and locals, code, program counter and owning index of the
current context are unchanged; this needs no assumption on the execution handle or on
variadicity. It does return normally when the stack holds at least `p` words, the parameter
kinds are supported and the arity fits: `p` plus the handle equals the number of parameters of
a non-variadic callable, and is at least the number of fixed parameters of a variadic one. -/
theorem goFunction_call_balance (fl : FloatConv) (fn : goFunction) (vm : VM) (index : Int)
    (f : Function) (r : Nat) (hidx : 0 ≤ index)
    (hf : vm.module.FunctionIndexSpace[index.toNat]? = some f)
    (hr : ∀ a b, (fn.val a b).length = r ∧ ∀ v, v ∈ fn.val a b → v.Kind ∈ supportedKinds) :
    (∀ s, fn.call fl vm index = .ok () s →
      ∃ base popped pushed, vm.ctx.stack = base ++ popped ∧
        popped.length = f.Sig.ParamTypes.length ∧ pushed.length = r ∧
        s.ctx.stack = base ++ pushed ∧ s.ctx.locals = vm.ctx.locals ∧
        s.ctx.code = vm.ctx.code ∧ s.ctx.pc = vm.ctx.pc ∧ s.ctx.curFunc = vm.ctx.curFunc) ∧
    (f.Sig.ParamTypes.length ≤ vm.ctx.stack.length →
      (∀ t, t ∈ fn.typ.fixed.drop (if fn.firstIsProc then 1 else 0) →
        t.kind ∈ supportedKinds) →
      (∀ t, fn.typ.variadicElem = some t → t.kind ∈ supportedKinds) →
      (fn.typ.IsVariadic = true →
        fn.typ.fixed.length ≤ f.Sig.ParamTypes.length + (if fn.firstIsProc then 1 else 0)) →
      (fn.typ.IsVariadic = false →
        fn.typ.fixed.length = f.Sig.ParamTypes.length + (if fn.firstIsProc then 1 else 0)) →
      ∃ s, fn.call fl vm index = .ok () s) := by
  constructor
  · intro s h
    unfold goFunction.call at h
    cases hm : fn.marshal fl vm index with
    | panic e s0 => simp [hm] at h
    | ok args s1 =>
      simp only [hm] at h
      cases hc : fn.Call args with
      | none => simp [hc] at h
      | some rtrns =>
        simp only [hc] at h
        obtain ⟨ws, m1, m2, m3⟩ := marshal_inv fl fn vm index f args s1 hidx hf hm
        obtain ⟨words, p1, p2, p3⟩ := pushReturns_inv fl rtrns 0 s1 s h
        obtain ⟨a, b, hab⟩ := Call_inv fn args rtrns hc
        obtain ⟨q1, q2, _, q4, q5, _, _⟩ := p3
        refine ⟨s1.ctx.stack, ws, words, m1, m2, ?_, p2, ?_, ?_, ?_, ?_⟩
        · rw [p1, hab]; exact (hr a b).1
        · rw [q1, m3]
        · rw [q2, m3]
        · rw [q4, m3]
        · rw [q5, m3]
  · intro hdepth hk1 hk2 hav hanv
    obtain ⟨hsplit, hlen⟩ := split_top vm.ctx.stack _ hdepth
    generalize hbase : vm.ctx.stack.take (vm.ctx.stack.length - f.Sig.ParamTypes.length)
      = base at hsplit
    generalize hws : vm.ctx.stack.drop (vm.ctx.stack.length - f.Sig.ParamTypes.length)
      = ws at hsplit hlen
    have hst : (if fn.firstIsProc then 1 else 0) ≤ fn.typ.fixed.length := by
      cases hb : fn.firstIsProc with
      | false => simp
      | true => simpa using firstIsProc_fixed fn hb
    have hle : fn.typ.fixed.length
        ≤ f.Sig.ParamTypes.length + (if fn.firstIsProc then 1 else 0) := by
      cases hv : fn.typ.IsVariadic with
      | true => exact hav hv
      | false => exact Nat.le_of_eq (hanv hv)
    generalize hk : fn.typ.fixed.length - (if fn.firstIsProc then 1 else 0) = k
    have hF : (ws.take k).length = k := by
      rw [List.length_take]; omega
    have hV : (ws.drop k).length = f.Sig.ParamTypes.length - k := by
      rw [List.length_drop]; omega
    have hex := (call_exact fl fn vm index f base (ws.take k) (ws.drop k) hidx hf
      (by rw [hF, hV]; omega) (by rw [hF]; omega)
      (fun hnone => by
        have hnv : fn.typ.IsVariadic = false := by simp [FuncType.IsVariadic, hnone]
        have := hanv hnv
        exact List.drop_eq_nil_of_le (by omega))
      (by rw [List.take_append_drop]; exact hsplit) hk1 hk2).2
    rw [hex]
    cases hpr : pushReturns fl _ 0 { vm with ctx := { vm.ctx with stack := base } } with
    | ok u s => exact ⟨s, rfl⟩
    | panic e s =>
      obtain ⟨v, hv, hn⟩ := (pushReturns_panic_iff fl _ _ _).mp ⟨e, s, hpr⟩
      exact absurd ((hr _ _).2 v hv) hn

/-- Instance of C7: the variadic callable `countingHost` called on `hostVM`. -/
theorem goFunction_call_balance_witness :
    (0 : Int) ≤ 0 ∧
    hostVM.module.FunctionIndexSpace[(0 : Int).toNat]?
      = some { Sig := { Form := 96, ParamTypes := [127, 126, 127, 127, 127],
                        ReturnTypes := [126] } } ∧
    ∃ s, countingHost.call idFloat hostVM 0 = .ok () s :=
  ⟨by decide, rfl,
    (goFunction_call_balance idFloat countingHost hostVM 0 _ 1 (by decide) rfl
      (fun a b => ⟨rfl, by simp [countingHost, Value.Kind, supportedKinds]⟩)).2
      (by decide) (by decide) (by decide) (by decide) (by decide)⟩

/-- C8. Let the callable be variadic with element type `elem`, its fixed parameters after the
optional execution handle be as many as the words `wsF`, and let the caller have pushed `wsF`
and then `wsV`, together as many words as the signature has parameters. The variadic loop runs
first and pops exactly `wsV`, leaving `wsF` on the stack. The callable then receives the
handle if it takes one, the fixed arguments converted from `wsF` in order, and a variadic
collection of `wsV.length` elements converted from `wsV` in push order. -/
theorem goFunction_call_variadic (fl : FloatConv) (fn : goFunction) (vm : VM) (index : Int)
    (f : Function) (base wsF wsV : List Nat) (elem : GoType) (hidx : 0 ≤ index)
    (hf : vm.module.FunctionIndexSpace[index.toNat]? = some f)
    (hv : fn.typ.variadicElem = some elem)
    (hp : f.Sig.ParamTypes.length = wsF.length + wsV.length)
    (hfix : fn.typ.fixed.length = (if fn.firstIsProc then 1 else 0) + wsF.length)
    (hs : vm.ctx.stack = base ++ (wsF ++ wsV))
    (hk1 : ∀ t, t ∈ fn.typ.fixed.drop (if fn.firstIsProc then 1 else 0) →
      t.kind ∈ supportedKinds)
    (hk2 : elem.kind ∈ supportedKinds) :
    variadicLoop fl elem fn.typ.fixed.length
        (f.Sig.ParamTypes.length + (if fn.firstIsProc then 1 else 0))
        (List.replicate (f.Sig.ParamTypes.length + (if fn.firstIsProc then 1 else 0))
          Value.invalid) vm
      = .ok (List.replicate fn.typ.fixed.length Value.invalid
              ++ wsV.map (convertWord fl elem))
          { vm with ctx := { vm.ctx with stack := base ++ wsF } } ∧
    fn.marshal fl vm index
      = .ok ((if fn.firstIsProc then [Value.proc index] else [])
          ++ List.zipWith (convertWord fl)
              (fn.typ.fixed.drop (if fn.firstIsProc then 1 else 0)) wsF
          ++ wsV.map (convertWord fl elem))
          { vm with ctx := { vm.ctx with stack := base } } ∧
    (List.zipWith (convertWord fl)
        (fn.typ.fixed.drop (if fn.firstIsProc then 1 else 0)) wsF).length = wsF.length ∧
    (wsV.map (convertWord fl elem)).length = wsV.length ∧
    fn.call fl vm index
      = pushReturns fl (fn.val
          ((if fn.firstIsProc then [Value.proc index] else [])
            ++ List.zipWith (convertWord fl)
                (fn.typ.fixed.drop (if fn.firstIsProc then 1 else 0)) wsF)
          (wsV.map (convertWord fl elem))) 0
          { vm with ctx := { vm.ctx with stack := base } } := by
  have hk2a : ∀ t, fn.typ.variadicElem = some t → t.kind ∈ supportedKinds := by
    intro t ht
    rw [hv] at ht
    injection ht with ht
    rw [← ht]; exact hk2
  have hvar : fn.typ.variadicElem = none → wsV = [] := by
    intro hn; rw [hv] at hn; cases hn
  have hm := marshal_exact fl fn vm index f base wsF wsV hidx hf hp hfix hvar hs hk1 hk2a
  have hc := (call_exact fl fn vm index f base wsF wsV hidx hf hp hfix hvar hs hk1 hk2a).2
  simp only [hv] at hm hc
  refine ⟨?_, hm, ?_, by simp, hc⟩
  · have hs1 : vm.ctx.stack = (base ++ wsF) ++ wsV := by rw [hs, List.append_assoc]
    have hvl := variadicLoop_exact fl elem fn.typ.fixed.length hk2 wsV.length wsV
      (List.replicate (fn.typ.fixed.length + wsV.length) Value.invalid) vm (base ++ wsF)
      rfl hs1 (by simp)
    have hn : f.Sig.ParamTypes.length + (if fn.firstIsProc then 1 else 0)
        = fn.typ.fixed.length + wsV.length := by omega
    rw [hn, hvl]
    simp
  · rw [List.length_zipWith, List.length_drop]
    omega

/-- Instance of C8: two fixed parameters, a variadic tail of `uint32`, and five words. The
callable receives two fixed arguments and a three-element collection in push order. -/
theorem goFunction_call_variadic_witness :
    hostVM.ctx.stack = [9] ++ ([1, 2] ++ [3, 4, 5]) ∧
    countingHost.typ.variadicElem = some { kind := .Uint32, fromProcess := false } ∧
    countingHost.call idFloat hostVM 0
      = pushReturns idFloat
          (countingHost.val [.val .Int32 1, .val .Int64 2]
            [.val .Uint32 3, .val .Uint32 4, .val .Uint32 5]) 0
          { hostVM with ctx := { hostVM.ctx with stack := [9] } } :=
  ⟨rfl, rfl,
    (goFunction_call_variadic idFloat countingHost hostVM 0
      { Sig := { Form := 96, ParamTypes := [127, 126, 127, 127, 127], ReturnTypes := [126] } }
      [9] [1, 2] [3, 4, 5] { kind := .Uint32, fromProcess := false }
      (by decide) rfl rfl rfl rfl rfl (by decide) (by decide)).2.2.2.2⟩

/-! ## Bounds of the signature check and agreement of the two call entries -/

/-- C15. Let the type index, table 0, the popped table slot and the resolved element index be
in range (of `Types.Entries`, `TableIndexSpace[0]`, `FunctionIndexSpace` and
`compiledFuncs`). The signature check of `callIndirect` raises no failure other than
`ErrSignatureMismatch`: once the two length comparisons have passed, every index below the
length of the expected parameter (return) types is below the length of the actual ones, and
neither pairwise loop meets an index out of range. The whole instruction then either panics
with `ErrSignatureMismatch` in the state reached by the pop or is the `doCall` of the
target. -/
theorem callIndirect_check_in_bounds (vm s s1 s2 : VM) (index r tableIndex elemIndex : Nat)
    (table : List Nat) (fnExpect : FunctionSig) (fnActual : Function)
    (compiled : compiledFunction)
    (h1 : vm.fetchUint32 = .ok index s)
    (hT : s.module.TypesEntries[index]? = some fnExpect)
    (h2 : s.fetchUint32 = .ok r s1)
    (h3 : s1.popUint32 = .ok tableIndex s2)
    (hTab : s2.module.TableIndexSpace[0]? = some table)
    (hEl : table[tableIndex]? = some elemIndex)
    (hF : s2.module.FunctionIndexSpace[elemIndex]? = some fnActual)
    (hC : s2.compiledFuncs[elemIndex]? = some compiled) :
    (∀ e, checkSignature fnExpect fnActual = some e → e = .ErrSignatureMismatch) ∧
    (fnExpect.ParamTypes.length = fnActual.Sig.ParamTypes.length →
      (∀ i, i < fnExpect.ParamTypes.length → ∃ a, fnActual.Sig.ParamTypes[i]? = some a) ∧
      ∀ k i, i + k = fnExpect.ParamTypes.length →
        checkTypes fnExpect.ParamTypes fnActual.Sig.ParamTypes k i
          ≠ some .indexOutOfRange) ∧
    (fnExpect.ReturnTypes.length = fnActual.Sig.ReturnTypes.length →
      (∀ i, i < fnExpect.ReturnTypes.length → ∃ a, fnActual.Sig.ReturnTypes[i]? = some a) ∧
      ∀ k i, i + k = fnExpect.ReturnTypes.length →
        checkTypes fnExpect.ReturnTypes fnActual.Sig.ReturnTypes k i
          ≠ some .indexOutOfRange) ∧
    (∀ execCode : ExecCode,
      vm.callIndirect execCode = .panic .ErrSignatureMismatch s2 ∨
      vm.callIndirect execCode = s2.doCall execCode compiled (index : Int)) := by
  have hspec := checkSignature_spec fnExpect fnActual
  have hloop : ∀ (e a : List ValueType), e.length = a.length →
      (∀ i, i < e.length → ∃ x, a[i]? = some x) ∧
      ∀ k i, i + k = e.length → checkTypes e a k i ≠ some .indexOutOfRange := by
    intro e a hlen
    refine ⟨fun i hi => ?_, ?_⟩
    · have hia : i < a.length := by omega
      exact ⟨a[i], List.getElem?_eq_getElem hia⟩
    intro k i hk
    rw [checkTypes_spec e a hlen k i hk]
    split <;> simp
  refine ⟨?_, hloop _ _, hloop _ _, ?_⟩
  · intro e he
    rw [hspec] at he
    split at he
    · cases he
    · injection he with he; exact he.symm
  · intro execCode
    unfold VM.callIndirect
    by_cases heq : fnExpect.ParamTypes = fnActual.Sig.ParamTypes ∧
        fnExpect.ReturnTypes = fnActual.Sig.ReturnTypes
    · rw [if_pos heq] at hspec
      right
      simp only [h1, hT, h2, h3, hTab, hEl, hF, hC, hspec]
    · rw [if_neg heq] at hspec
      left
      simp only [h1, hT, h2, h3, hTab, hEl, hF, hC, hspec]

/-- Instance of C15: the matching indirect call of `indirectVM 0`. -/
theorem callIndirect_check_in_bounds_witness :
    (indirectVM 0).fetchUint32
      = .ok 0 { indirectVM 0 with ctx := { (indirectVM 0).ctx with pc := 4 } } ∧
    ((indirectVM 0).callIndirect ownerBody
        = .panic .ErrSignatureMismatch (indirectVMPopped 0) ∨
      (indirectVM 0).callIndirect ownerBody
        = (indirectVMPopped 0).doCall ownerBody addFn ((0 : Nat) : Int)) :=
  ⟨by decide,
    (callIndirect_check_in_bounds (indirectVM 0)
      { indirectVM 0 with ctx := { (indirectVM 0).ctx with pc := 4 } }
      { indirectVM 0 with ctx := { (indirectVM 0).ctx with pc := 8 } }
      (indirectVMPopped 0) 0 0 0 1 [1] sigAdd { Sig := sigAdd } addFn
      (by decide) (by decide) (by decide) (by decide) (by decide) (by decide)
      (by decide) (by decide)).2.2.2 ownerBody⟩

/-- C16, evaluated at the failing input. For `addFn`, whose `maxDepth` is 2, `doCall` installs
a callee frame whose operand stack already holds two zero words, while
`compiledFunction.call` installs one whose operand stack is empty; locals, code, program
counter and owning index of the two frames agree. A body that returns the depth of the stack
it starts with makes the difference visible in the caller: 2 after `doCall`, 0 after
`compiledFunction.call`. -/
theorem doCall_frame_stack_not_empty :
    demoVM.doCallEnter addFn 1 = .ok { demoVM.ctx with stack := [9] } demoCallee ∧
    addFn.callEnter demoVM 1 = .ok { demoVM.ctx with stack := [9] } demoCalleeNative ∧
    demoCallee.ctx.stack = [0, 0] ∧ demoCalleeNative.ctx.stack = [] ∧
    demoCallee.ctx.locals = demoCalleeNative.ctx.locals ∧
    demoCallee.ctx.code = demoCalleeNative.ctx.code ∧
    demoCallee.ctx.pc = demoCalleeNative.ctx.pc ∧
    demoCallee.ctx.curFunc = demoCalleeNative.ctx.curFunc ∧
    (demoVM.doCall depthBody addFn 1).state.ctx.stack = [9, 2] ∧
    (addFn.call depthBody demoVM 1).state.ctx.stack = [9, 0] := by
  decide

/-! ## Host function registration -/

theorem fillTypes_eq (get : Nat → Option GoType) :
    ∀ (l : List GoType) (i : Nat), (∀ j, j < l.length → get (i + j) = l[j]?) →
      fillTypes get l.length i = .ok (l.map (fun t => reflectToValueType t.kind)) := by
  intro l
  induction l with
  | nil => intro i _; rfl
  | cons t rest ih =>
    intro i h
    have h0 : get i = some t := by simpa using h 0 (by simp)
    have hrest : ∀ j, j < rest.length → get (i + 1 + j) = rest[j]? := by
      intro j hj
      have := h (j + 1) (by simpa using hj)
      rw [show i + (j + 1) = i + 1 + j by omega] at this
      simpa using this
    simp only [List.length_cons, fillTypes, h0, ih (i + 1) hrest, List.map_cons]

theorem hostSig_nonvariadic (typ : FuncType) (hv : typ.IsVariadic = false) :
    hostSig typ = .ok
      { Form := 0,
        ParamTypes := (typ.fixed.drop (if typ.firstParamIsProcess then 1 else 0)).map
          (fun t => reflectToValueType t.kind),
        ReturnTypes := typ.outs.map (fun t => reflectToValueType t.kind) } := by
  unfold hostSig
  simp only [hv, Bool.not_false, if_true]
  generalize (if typ.firstParamIsProcess then 1 else 0) = offset
  have hn : typ.NumIn - offset = (typ.fixed.drop offset).length := by
    simp [FuncType.NumIn, hv]
  have hp := fillTypes_eq (fun i => typ.In (i + offset)) (typ.fixed.drop offset) 0
    (fun j hj => by
      simp only [List.length_drop] at hj
      simp only [Nat.zero_add]
      rw [In_fixed _ _ (by omega), List.getElem?_drop, Nat.add_comm])
  have hr := fillTypes_eq typ.Out typ.outs 0 (fun j _ => by simp [FuncType.Out])
  rw [hn, hp]
  simp only [FuncType.NumOut, hr]

theorem hostSig_ok (typ : FuncType) : ∃ sig, hostSig typ = .ok sig := by
  cases hv : typ.IsVariadic with
  | false => exact ⟨_, hostSig_nonvariadic typ hv⟩
  | true =>
    exact ⟨{ Form := 0, ParamTypes := [], ReturnTypes := [] }, by simp [hostSig, hv]⟩

theorem lookup_filter_ne (entries : List (String × ExportEntry)) (name other : String)
    (h : other ≠ name) :
    (entries.filter (fun p => p.1 ≠ name)).lookup other = entries.lookup other := by
  induction entries with
  | nil => rfl
  | cons p rest ih =>
    obtain ⟨k, v⟩ := p
    by_cases hk : k = name
    · subst hk
      simp_all [List.filter_cons, List.lookup_cons]
      have hne : (other == k) = false := by simpa using h
      rw [hne]
    · by_cases ho : other = k
      · subst ho
        simp_all [List.filter_cons, List.lookup_cons]
      · have hne : (other == k) = false := by simpa using ho
        simp_all [List.filter_cons, List.lookup_cons]

theorem AddHostFunc_eq (m : Module) (name : String) (fn : GoValue) (sig : FunctionSig)
    (hfunc : fn.kind = .Func) (hname : name = "" ∨ fn.typ.IsVariadic = false)
    (hsig : hostSig fn.typ = .ok sig) :
    m.AddHostFunc name fn = .ok
      { m with
        FunctionIndexSpace := m.FunctionIndexSpace ++ [{ Sig := sig, Host := some fn }],
        TypesEntries := m.TypesEntries ++ [sig],
        ExportEntries := some (mapAssign
          (match m.ExportEntries with
           | none => []
           | some es => es) name
          { FieldStr := name, Kind := ExternalFunction,
            Index := m.FunctionIndexSpace.length % 2 ^ 32 }) } := by
  have hacc : ¬ (name ≠ "" ∧ fn.typ.IsVariadic = true) := by
    rintro ⟨h1, h2⟩
    rcases hname with h | h
    · exact h1 h
    · rw [h] at h2; cases h2
  unfold Module.AddHostFunc
  simp only [hfunc, ne_eq, not_true_eq_false, if_false, hacc, hsig]

/-- C11. Let `AddHostFunc` accept `name` and `fn`: `fn` is a function, and it is not variadic
unless `name` is empty; let the function index space have fewer than `2 ^ 32` entries. Then
`AddHostFunc` returns normally; the function index space is the previous one followed by the
new host function, which so sits at the previous length `n`; `Types.Entries` is the previous
list followed by the signature of the new function; and `Export.Entries[name]` is the
function export with index `n`, while every other name looks up as before. -/
theorem AddHostFunc_appends (m : Module) (name : String) (fn : GoValue)
    (hfunc : fn.kind = .Func) (hname : name = "" ∨ fn.typ.IsVariadic = false)
    (hlen : m.FunctionIndexSpace.length < 2 ^ 32) :
    ∃ m1 sig, m.AddHostFunc name fn = .ok m1 ∧ hostSig fn.typ = .ok sig ∧
      m1.FunctionIndexSpace = m.FunctionIndexSpace ++ [{ Sig := sig, Host := some fn }] ∧
      m1.FunctionIndexSpace.length = m.FunctionIndexSpace.length + 1 ∧
      m1.FunctionIndexSpace[m.FunctionIndexSpace.length]?
        = some { Sig := sig, Host := some fn } ∧
      (∀ i, i < m.FunctionIndexSpace.length →
        m1.FunctionIndexSpace[i]? = m.FunctionIndexSpace[i]?) ∧
      m1.TypesEntries = m.TypesEntries ++ [sig] ∧
      m1.TypesEntries.length = m.TypesEntries.length + 1 ∧
      m1.TypesEntries[m.TypesEntries.length]? = some sig ∧
      (∀ i, i < m.TypesEntries.length → m1.TypesEntries[i]? = m.TypesEntries[i]?) ∧
      ∃ es, m1.ExportEntries = some es ∧
        es.lookup name = some { FieldStr := name, Kind := ExternalFunction,
                                Index := m.FunctionIndexSpace.length } ∧
        ∀ other, other ≠ name →
          es.lookup other
            = (match m.ExportEntries with
               | some old => old.lookup other
               | none => none) := by
  obtain ⟨sig, hsig⟩ := hostSig_ok fn.typ
  have hres := AddHostFunc_eq m name fn sig hfunc hname hsig
  rw [Nat.mod_eq_of_lt hlen] at hres
  refine ⟨_, sig, hres, hsig, rfl, by simp, by simp, ?_, rfl, by simp, by simp, ?_, _, rfl,
    ?_, ?_⟩
  · intro i hi
    simp only
    rw [List.getElem?_append_left hi]
  · intro i hi
    simp only
    rw [List.getElem?_append_left hi]
  · simp [mapAssign, List.lookup_cons]
  · intro other hother
    have hne : (other == name) = false := by simpa using hother
    simp only [mapAssign, List.lookup_cons, hne]
    rw [lookup_filter_ne _ _ _ hother]
    cases m.ExportEntries <;> simp

/-- Instance of C11: `sampleHost` registered in `sampleModule`. -/
theorem AddHostFunc_appends_witness :
    sampleHost.kind = .Func ∧ sampleModule.FunctionIndexSpace.length < 2 ^ 32 ∧
    ∃ m1 sig, sampleModule.AddHostFunc sampleName sampleHost = .ok m1 ∧
      hostSig sampleHost.typ = .ok sig ∧
      m1.FunctionIndexSpace
        = sampleModule.FunctionIndexSpace ++ [{ Sig := sig, Host := some sampleHost }] :=
  ⟨rfl, by decide,
    match AddHostFunc_appends sampleModule sampleName sampleHost rfl (Or.inr rfl)
      (by decide) with
    | ⟨m1, sig, h1, h2, h3, _⟩ => ⟨m1, sig, h1, h2, h3⟩⟩

/-- C12. For a non-variadic function `fn` with `N` parameters, `AddHostFunc` records as last
entry of the function index space (and of `Types.Entries`) a signature with `N - 1`
parameters when the first parameter of `fn` is named `*exec.Process` and `N` parameters
otherwise. Parameter `j` of the signature is `reflectToValueType` of the kind of parameter
`j + offset` of `fn`, and return `j` that of result `j`; the map sends `Int32` and `Uint32`
to i32, `Int64` and `Uint64` to i64, `Float32` to f32 and `Float64` to f64. -/
theorem AddHostFunc_signature (m : Module) (name : String) (fn : GoValue)
    (hfunc : fn.kind = .Func) (hv : fn.typ.IsVariadic = false) :
    ∃ m1 sig, m.AddHostFunc name fn = .ok m1 ∧
      m1.FunctionIndexSpace.getLast? = some { Sig := sig, Host := some fn } ∧
      m1.TypesEntries.getLast? = some sig ∧
      (fn.typ.firstParamIsProcess = true ↔
        ∃ t, fn.typ.fixed[0]? = some t ∧ t.str = "*exec.Process") ∧
      (fn.typ.firstParamIsProcess = true → sig.ParamTypes.length + 1 = fn.typ.NumIn) ∧
      (fn.typ.firstParamIsProcess = false → sig.ParamTypes.length = fn.typ.NumIn) ∧
      (∀ j, j < sig.ParamTypes.length →
        ∃ t, fn.typ.In (j + (if fn.typ.firstParamIsProcess then 1 else 0)) = some t ∧
          sig.ParamTypes[j]? = some (reflectToValueType t.kind)) ∧
      sig.ReturnTypes.length = fn.typ.NumOut ∧
      (∀ j, j < fn.typ.NumOut →
        ∃ t, fn.typ.Out j = some t ∧ sig.ReturnTypes[j]? = some (reflectToValueType t.kind)) ∧
      reflectToValueType .Int32 = ValueTypeI32 ∧ reflectToValueType .Uint32 = ValueTypeI32 ∧
      reflectToValueType .Int64 = ValueTypeI64 ∧ reflectToValueType .Uint64 = ValueTypeI64 ∧
      reflectToValueType .Float32 = ValueTypeF32 ∧
      reflectToValueType .Float64 = ValueTypeF64 := by
  have hsig := hostSig_nonvariadic fn.typ hv
  have hres := AddHostFunc_eq m name fn _ hfunc (Or.inr hv) hsig
  have hnum : fn.typ.NumIn = fn.typ.fixed.length := by simp [FuncType.NumIn, hv]
  have hfirst : fn.typ.firstParamIsProcess = true ↔
      ∃ t, fn.typ.fixed[0]? = some t ∧ t.str = "*exec.Process" := by
    unfold FuncType.firstParamIsProcess FuncType.In
    rw [hnum]
    cases hfx : fn.typ.fixed with
    | nil => simp [hv]
    | cons a l => simp
  have hoff : (if fn.typ.firstParamIsProcess then 1 else 0) ≤ fn.typ.fixed.length := by
    cases hb : fn.typ.firstParamIsProcess with
    | false => simp
    | true =>
      obtain ⟨t, ht, _⟩ := hfirst.mp hb
      have : 0 < fn.typ.fixed.length := by
        by_contra hn
        rw [List.getElem?_eq_none (by omega)] at ht
        cases ht
      simpa using this
  refine ⟨_,
    { Form := 0,
      ParamTypes := (fn.typ.fixed.drop (if fn.typ.firstParamIsProcess then 1 else 0)).map
        (fun t => reflectToValueType t.kind),
      ReturnTypes := fn.typ.outs.map (fun t => reflectToValueType t.kind) },
    hres, by simp, by simp, hfirst, ?_, ?_, ?_, by simp [FuncType.NumOut], ?_,
    rfl, rfl, rfl, rfl, rfl, rfl⟩
  · intro hb
    simp only [hb, if_true] at hoff ⊢
    simp only [List.length_map, List.length_drop, hnum]
    omega
  · intro hb
    simp only [hb, Bool.false_eq_true, if_false, List.drop_zero, List.length_map, hnum]
  · intro j hj
    simp only [List.length_map, List.length_drop] at hj
    have hlt : j + (if fn.typ.firstParamIsProcess then 1 else 0) < fn.typ.fixed.length := by
      omega
    refine ⟨fn.typ.fixed[j + (if fn.typ.firstParamIsProcess then 1 else 0)], ?_, ?_⟩
    · rw [In_fixed _ _ hlt, List.getElem?_eq_getElem hlt]
    · simp only [List.getElem?_map, List.getElem?_drop]
      rw [Nat.add_comm, List.getElem?_eq_getElem hlt]
      rfl
  · intro j hj
    simp only [FuncType.NumOut] at hj
    refine ⟨fn.typ.outs[j], ?_, ?_⟩
    · simp [FuncType.Out, List.getElem?_eq_getElem hj]
    · simp [List.getElem?_map, List.getElem?_eq_getElem hj]

/-- Instance of C12: `sampleHost` takes the handle, an `int32` and a `float64` and returns
an `int64`; its recorded signature is (i32, f64) to i64. -/
theorem AddHostFunc_signature_witness :
    sampleHost.kind = .Func ∧ sampleHost.typ.IsVariadic = false ∧
    hostSig sampleHost.typ = .ok
      { Form := 0, ParamTypes := [ValueTypeI32, ValueTypeF64],
        ReturnTypes := [ValueTypeI64] } ∧
    ∃ m1 sig, sampleModule.AddHostFunc sampleName sampleHost = .ok m1 ∧
      m1.TypesEntries.getLast? = some sig :=
  ⟨rfl, rfl, rfl,
    match AddHostFunc_signature sampleModule sampleName sampleHost rfl rfl with
    | ⟨m1, sig, h1, _, h3, _⟩ => ⟨m1, sig, h1, h3⟩⟩

/-! ## Reading a module -/

theorem readSections_mono (L : Loader) :
    ∀ (fuel : Nat) (m : Module) (r : List Nat) (x : Except WasmError Module) (fuel1 : Nat),
      readSections L fuel m r = some x → fuel ≤ fuel1 → readSections L fuel1 m r = some x := by
  intro fuel
  induction fuel with
  | zero => intro m r x fuel1 h _; simp [readSections] at h
  | succ n ih =>
    intro m r x fuel1 h hle
    obtain ⟨k, rfl⟩ : ∃ k, fuel1 = k + 1 := ⟨fuel1 - 1, by omega⟩
    rw [readSections] at h ⊢
    cases hs : L.readSection m r with
    | error e => simpa [hs] using h
    | ok t =>
      obtain ⟨done, m1, r1⟩ := t
      simp only [hs] at h ⊢
      by_cases hd : done = true
      · simpa [hd] using h
      · simp only [hd, if_false] at h ⊢
        exact ih m1 r1 x k h (by omega)

theorem DecodeModule_mono (L : Loader) (fuel fuel1 : Nat) (r : List Nat)
    (x : Except WasmError Module) (h : DecodeModule L fuel r = some x) (hle : fuel ≤ fuel1) :
    DecodeModule L fuel1 r = some x := by
  unfold DecodeModule at h ⊢
  cases h1 : L.readU32 r with
  | error e => simpa [h1] using h
  | ok t =>
    obtain ⟨magic, r1⟩ := t
    simp only [h1] at h ⊢
    by_cases hm : magic ≠ Magic
    · simpa [hm] using h
    · simp only [hm, if_false] at h ⊢
      cases h2 : L.readU32 r1 with
      | error e => simpa [h2] using h
      | ok t2 =>
        obtain ⟨version, r2⟩ := t2
        simp only [h2] at h ⊢
        exact readSections_mono L fuel _ _ x fuel1 h hle

theorem resolveImports_append (L : Loader) (resolve : ResolveFunc) :
    ∀ (pre rest : List String) (m : Module),
      resolveImports L resolve (pre ++ rest) m
        = (match resolveImports L resolve pre m with
           | .error e => .error e
           | .ok m1 => resolveImports L resolve rest m1) := by
  intro pre
  induction pre with
  | nil => intro rest m; rfl
  | cons name tl ih =>
    intro rest m
    simp only [List.cons_append, resolveImports]
    cases resolve name with
    | error e => rfl
    | ok imported =>
      simp only
      cases L.link m name imported with
      | error e => rfl
      | ok m1 => exact ih rest m1

theorem runSteps_shape :
    ∀ (steps : List (Module → Except WasmError Module)) (m : Module),
      ((runSteps steps m).1 = none ∧ (runSteps steps m).2 ≠ none) ∨
      ((runSteps steps m).1 ≠ none ∧ (runSteps steps m).2 = none) := by
  intro steps
  induction steps with
  | nil => intro m; right; simp [runSteps]
  | cons fn rest ih =>
    intro m
    rw [runSteps]
    cases fn m with
    | error e => left; simp
    | ok m1 => exact ih m1

theorem allocateIndexSpaces_Import (m : Module) : m.allocateIndexSpaces.Import = m.Import := by
  unfold Module.allocateIndexSpaces
  cases m.Table <;> rfl

theorem prepareModule_resolve (L : Loader) (resolve : ResolveFunc) (m : Module)
    (imports : List String) (hi : m.Import = some imports) :
    prepareModule L (some resolve) m
      = resolveImports L resolve imports m.allocateIndexSpaces.ensureCode := by
  have h := allocateIndexSpaces_Import m
  rw [hi] at h
  unfold prepareModule
  simp only [h]

theorem prepareModule_skip (L : Loader) (resolvePath : Option ResolveFunc) (m : Module)
    (h : resolvePath = none ∨ m.Import = none) :
    prepareModule L resolvePath m = .ok m.allocateIndexSpaces := by
  have hI := allocateIndexSpaces_Import m
  unfold prepareModule
  rcases h with h | h
  · subst h
    cases hm : m.allocateIndexSpaces.Import <;> simp
  · rw [h] at hI
    simp only [hI]

/-- A module that imports from `env`, read with a resolver that knows no module, is not
returned: the resolver's error comes back with a nil module. Without a resolver the imports
are left unresolved and the module is returned. -/
theorem ReadModule_unresolved_example :
    ReadModule demoLoader 1 demoHeader (some failingResolver) = some (none, some (.other 7)) ∧
    ReadModule demoLoader 1 demoHeader none
      = some (some { emptyModule with
                      Version := 1, Import := some ["env"],
                      LinearMemoryIndexSpace := [[]] }, none) := by
  decide

/-- C13. `ReadModule` returns either a nil module with an error or a module with a nil error.
An error of `DecodeModule` (a failed read of the magic number or the version, a wrong magic
number, a failed section), of the resolution of imports, or of one of the steps
`populateGlobals`, `populateFunctions`, `populateTables`, `populateLinearMemory`, run in that
order, is returned together with a nil module. When the decoded module has a section of
imports and a resolver is given, `ReadModule` runs `resolveImports` on the module with its
index spaces allocated; a resolver that fails on the name of an imported module, all earlier
names having been resolved and linked, makes `ReadModule` return the resolver's error and a
nil module. Without a section of imports or without a resolver no name is resolved. A module
is returned only when decoding, preparation and all four steps succeeded, and then it is the
module the last step produced. The outcome of decoding does not change when more iterations
of the section loop are allowed. -/
theorem ReadModule_no_partial (L : Loader) (fuel : Nat) (r : List Nat)
    (resolvePath : Option ResolveFunc) :
    (∀ out, ReadModule L fuel r resolvePath = some out →
      (out.1 = none ∧ out.2 ≠ none) ∨ (out.1 ≠ none ∧ out.2 = none)) ∧
    (∀ e, DecodeModule L fuel r = some (.error e) →
      ReadModule L fuel r resolvePath = some (none, some e)) ∧
    (∀ m e, DecodeModule L fuel r = some (.ok m) →
      prepareModule L resolvePath m = .error e →
      ReadModule L fuel r resolvePath = some (none, some e)) ∧
    (∀ resolve pre name rest m m1 e,
      resolveImports L resolve pre m = .ok m1 → resolve name = .error e →
      resolveImports L resolve (pre ++ name :: rest) m = .error e) ∧
    (∀ m m1, DecodeModule L fuel r = some (.ok m) → prepareModule L resolvePath m = .ok m1 →
      (∀ e, L.populateGlobals m1 = .error e →
        ReadModule L fuel r resolvePath = some (none, some e)) ∧
      (∀ m2 e, L.populateGlobals m1 = .ok m2 → L.populateFunctions m2 = .error e →
        ReadModule L fuel r resolvePath = some (none, some e)) ∧
      (∀ m2 m3 e, L.populateGlobals m1 = .ok m2 → L.populateFunctions m2 = .ok m3 →
        L.populateTables m3 = .error e →
        ReadModule L fuel r resolvePath = some (none, some e)) ∧
      (∀ m2 m3 m4 e, L.populateGlobals m1 = .ok m2 → L.populateFunctions m2 = .ok m3 →
        L.populateTables m3 = .ok m4 → L.populateLinearMemory m4 = .error e →
        ReadModule L fuel r resolvePath = some (none, some e)) ∧
      (∀ m2 m3 m4 m5, L.populateGlobals m1 = .ok m2 → L.populateFunctions m2 = .ok m3 →
        L.populateTables m3 = .ok m4 → L.populateLinearMemory m4 = .ok m5 →
        ReadModule L fuel r resolvePath = some (some m5, none))) ∧
    (∀ mOut err, ReadModule L fuel r resolvePath = some (some mOut, err) →
      err = none ∧
      ∃ m m1 m2 m3 m4, DecodeModule L fuel r = some (.ok m) ∧
        prepareModule L resolvePath m = .ok m1 ∧ L.populateGlobals m1 = .ok m2 ∧
        L.populateFunctions m2 = .ok m3 ∧ L.populateTables m3 = .ok m4 ∧
        L.populateLinearMemory m4 = .ok mOut) ∧
    (∀ x fuel1, DecodeModule L fuel r = some x → fuel ≤ fuel1 →
      DecodeModule L fuel1 r = some x) ∧
    (∀ m resolve pre name rest m1 e, DecodeModule L fuel r = some (.ok m) →
      resolvePath = some resolve → m.Import = some (pre ++ name :: rest) →
      resolveImports L resolve pre m.allocateIndexSpaces.ensureCode = .ok m1 →
      resolve name = .error e →
      ReadModule L fuel r resolvePath = some (none, some e)) ∧
    (∀ m resolve imports, DecodeModule L fuel r = some (.ok m) →
      resolvePath = some resolve → m.Import = some imports →
      (∀ e, resolveImports L resolve imports m.allocateIndexSpaces.ensureCode = .error e →
        ReadModule L fuel r resolvePath = some (none, some e)) ∧
      (∀ m1, resolveImports L resolve imports m.allocateIndexSpaces.ensureCode = .ok m1 →
        ReadModule L fuel r resolvePath
          = some (runSteps [L.populateGlobals, L.populateFunctions, L.populateTables,
              L.populateLinearMemory] m1))) ∧
    (∀ m, DecodeModule L fuel r = some (.ok m) → (resolvePath = none ∨ m.Import = none) →
      ReadModule L fuel r resolvePath
        = some (runSteps [L.populateGlobals, L.populateFunctions, L.populateTables,
            L.populateLinearMemory] m.allocateIndexSpaces)) ∧
    (∀ e, L.readU32 r = .error e →
      ReadModule L fuel r resolvePath = some (none, some e)) ∧
    (∀ magic r1, L.readU32 r = .ok (magic, r1) → magic ≠ Magic →
      ReadModule L fuel r resolvePath = some (none, some .ErrInvalidMagic)) ∧
    (∀ r1 e, L.readU32 r = .ok (Magic, r1) → L.readU32 r1 = .error e →
      ReadModule L fuel r resolvePath = some (none, some e)) ∧
    (∀ r1 version r2 e, L.readU32 r = .ok (Magic, r1) → L.readU32 r1 = .ok (version, r2) →
      0 < fuel → L.readSection { emptyModule with Version := version } r2 = .error e →
      ReadModule L fuel r resolvePath = some (none, some e)) := by
  refine ⟨?_, ?_, ?_, ?_, ?_, ?_, ?_, ?_, ?_, ?_, ?_, ?_, ?_, ?_⟩
  · intro out h
    unfold ReadModule at h
    cases hd : DecodeModule L fuel r with
    | none => simp [hd] at h
    | some x =>
      cases x with
      | error e =>
        simp only [hd, Option.some.injEq] at h
        subst h
        left; simp
      | ok m =>
        simp only [hd] at h
        cases hp : prepareModule L resolvePath m with
        | error e =>
          simp only [hp, Option.some.injEq] at h
          subst h
          left; simp
        | ok m1 =>
          simp only [hp, Option.some.injEq] at h
          subst h
          exact runSteps_shape _ m1
  · intro e hd
    simp [ReadModule, hd]
  · intro m e hd hp
    simp [ReadModule, hd, hp]
  · intro resolve pre name rest m m1 e hpre hres
    rw [resolveImports_append, hpre]
    simp [resolveImports, hres]
  · intro m m1 hd hp
    refine ⟨?_, ?_, ?_, ?_, ?_⟩
    · intro e h1
      simp [ReadModule, hd, hp, runSteps, h1]
    · intro m2 e h1 h2
      simp [ReadModule, hd, hp, runSteps, h1, h2]
    · intro m2 m3 e h1 h2 h3
      simp [ReadModule, hd, hp, runSteps, h1, h2, h3]
    · intro m2 m3 m4 e h1 h2 h3 h4
      simp [ReadModule, hd, hp, runSteps, h1, h2, h3, h4]
    · intro m2 m3 m4 m5 h1 h2 h3 h4
      simp [ReadModule, hd, hp, runSteps, h1, h2, h3, h4]
  · intro mOut err h
    unfold ReadModule at h
    cases hd : DecodeModule L fuel r with
    | none => simp [hd] at h
    | some x =>
      cases x with
      | error e => simp [hd] at h
      | ok m =>
        simp only [hd] at h
        cases hp : prepareModule L resolvePath m with
        | error e => simp [hp] at h
        | ok m1 =>
          simp only [hp, Option.some.injEq] at h
          cases h1 : L.populateGlobals m1 with
          | error e => simp [runSteps, h1] at h
          | ok m2 =>
            cases h2 : L.populateFunctions m2 with
            | error e => simp [runSteps, h1, h2] at h
            | ok m3 =>
              cases h3 : L.populateTables m3 with
              | error e => simp [runSteps, h1, h2, h3] at h
              | ok m4 =>
                cases h4 : L.populateLinearMemory m4 with
                | error e => simp [runSteps, h1, h2, h3, h4] at h
                | ok m5 =>
                  simp only [runSteps, h1, h2, h3, h4, Prod.mk.injEq,
                    Option.some.injEq] at h
                  obtain ⟨hm, he⟩ := h
                  subst hm
                  exact ⟨he.symm, m, m1, m2, m3, m4, rfl, hp, h1, h2, h3, h4⟩
  · intro x fuel1 hd hle
    exact DecodeModule_mono L fuel fuel1 r x hd hle
  · intro m resolve pre name rest m1 e hd hr hi hpre hres
    subst hr
    have hp := prepareModule_resolve L resolve m _ hi
    rw [resolveImports_append, hpre] at hp
    simp only [resolveImports, hres] at hp
    simp [ReadModule, hd, hp]
  · intro m resolve imports hd hr hi
    subst hr
    have hp := prepareModule_resolve L resolve m _ hi
    constructor
    · intro e he
      rw [he] at hp
      simp [ReadModule, hd, hp]
    · intro m1 he
      rw [he] at hp
      simp [ReadModule, hd, hp]
  · intro m hd hskip
    have hp := prepareModule_skip L resolvePath m hskip
    simp [ReadModule, hd, hp]
  · intro e h1
    simp [ReadModule, DecodeModule, h1]
  · intro magic r1 h1 hm
    simp [ReadModule, DecodeModule, h1, hm]
  · intro r1 e h1 h2
    simp [ReadModule, DecodeModule, h1, h2]
  · intro r1 version r2 e h1 h2 hfuel hs
    obtain ⟨k, rfl⟩ : ∃ k, fuel = k + 1 := ⟨fuel - 1, by omega⟩
    simp [ReadModule, DecodeModule, h1, h2, readSections, hs]

/-! ## The name section -/

theorem readVarUint32Loop_leb :
    ∀ (fuel v : Nat) (rest : List Nat) (shift res : Nat), v ≤ fuel →
      readVarUint32Loop (leb128Groups fuel v ++ rest) shift res
        = .ok ((res + v * 2 ^ shift) % 2 ^ 32, rest) := by
  intro fuel
  induction fuel with
  | zero =>
    intro v rest shift res hv
    have h0 : v = 0 := by omega
    subst h0
    simp [leb128Groups, readVarUint32Loop]
  | succ n ih =>
    intro v rest shift res hv
    rw [leb128Groups]
    by_cases hlt : v < 128
    · have h1 : v % 128 = v := Nat.mod_eq_of_lt hlt
      have h2 : v % 256 < 128 := by omega
      simp only [hlt, if_true, List.singleton_append, readVarUint32Loop, h1, h2]
    · have h1 : (v % 128 + 128) % 128 = v % 128 := by omega
      have h2 : ¬ ((v % 128 + 128) % 256 < 128) := by omega
      have hdiv : v / 128 ≤ n := by omega
      simp only [hlt, if_false, List.cons_append, readVarUint32Loop, h1, h2]
      rw [ih (v / 128) rest (shift + 7) _ hdiv, Nat.mod_add_mod]
      have hsplit : res + v % 128 * 2 ^ shift + v / 128 * 2 ^ (shift + 7)
          = res + v * 2 ^ shift := by
        have hv2 : v = 128 * (v / 128) + v % 128 := (Nat.div_add_mod v 128).symm
        have hp : 2 ^ (shift + 7) = 2 ^ shift * 128 := by rw [pow_add]; norm_num
        rw [hp]
        generalize v / 128 = q at hv2 ⊢
        generalize v % 128 = m at hv2 ⊢
        subst hv2
        ring
      rw [hsplit]

theorem ReadVarUint32_leb (v : Nat) (rest : List Nat) :
    ReadVarUint32 (leb128 v ++ rest) = .ok (v % 2 ^ 32, rest) := by
  unfold ReadVarUint32 leb128
  rw [readVarUint32Loop_leb v v rest 0 0 (Nat.le_refl v)]
  simp

theorem readStringUint_encoded (valid : List Nat → Bool) (name rest : List Nat)
    (hlen : name.length < 2 ^ 32) (hvalid : valid name = true) :
    readStringUint valid (leb128 name.length ++ name ++ rest) = .ok (name, rest) := by
  unfold readStringUint
  rw [List.append_assoc, ReadVarUint32_leb, Nat.mod_eq_of_lt hlen]
  have h1 : ¬ ((name ++ rest).length < name.length) := by simp
  simp only [h1, if_false, List.take_left, List.drop_left, hvalid, if_true]

theorem readNamesLoop_encoded (valid : List Nat → Bool) :
    ∀ (names : List CustomName) (rest : List Nat),
      (∀ p, p ∈ names → p.Index < 2 ^ 32 ∧ p.Name.length < 2 ^ 32 ∧ valid p.Name = true) →
      readNamesLoop valid names.length (encodeNames names ++ rest) = .ok names := by
  intro names
  induction names with
  | nil => intro rest _; rfl
  | cons p tl ih =>
    intro rest h
    obtain ⟨h1, h2, h3⟩ := h p (by simp)
    have htl := ih rest (fun q hq => h q (by simp [hq]))
    simp only [List.length_cons, encodeNames, readNamesLoop]
    rw [List.append_assoc, List.append_assoc, ReadVarUint32_leb, Nat.mod_eq_of_lt h1]
    simp only
    rw [readStringUint_encoded valid p.Name _ h2 h3]
    simp only [htl]

/-- C14. For every list of (function index, name) pairs whose indices, name lengths and count
fit in 32 bits and whose names pass the UTF-8 check, `CustomReadNames` applied to the type
byte 1, a LEB128 subsection length (any value), the LEB128 count and, for each pair, its
LEB128 index followed by its length-prefixed name returns those pairs in order, with no
error. -/
theorem CustomReadNames_roundtrip (valid : List Nat → Bool) (totalSize : Nat)
    (names : List CustomName) (hcount : names.length < 2 ^ 32)
    (hnames : ∀ p, p ∈ names →
      p.Index < 2 ^ 32 ∧ p.Name.length < 2 ^ 32 ∧ valid p.Name = true) :
    CustomReadNames valid (encodeNameSection totalSize names) = .ok names := by
  unfold CustomReadNames encodeNameSection
  simp only [ne_eq, not_true_eq_false, if_false]
  rw [ReadVarUint32_leb]
  simp only
  rw [ReadVarUint32_leb, Nat.mod_eq_of_lt hcount]
  simp only
  have h := readNamesLoop_encoded valid names [] hnames
  rw [List.append_nil] at h
  rw [h]

/-- Instance of C14: the two entries of `sampleNames`, with the index 300 on two bytes. -/
theorem CustomReadNames_roundtrip_witness :
    sampleNames.length < 2 ^ 32 ∧
    encodeNameSection 9 sampleNames = [1, 9, 2, 0, 1, 102, 172, 2, 2, 103, 111] ∧
    CustomReadNames anyBytes (encodeNameSection 9 sampleNames) = .ok sampleNames :=
  ⟨by decide, by decide,
    CustomReadNames_roundtrip anyBytes 9 sampleNames (by decide)
      (by
        intro p hp
        simp only [sampleNames, List.mem_cons, List.mem_singleton, List.not_mem_nil,
          or_false] at hp
        rcases hp with rfl | rfl <;> refine ⟨by norm_num, by norm_num, rfl⟩)⟩

end Wagon
